import Mathlib

/-!
Verification model of the `truelecter/unquec-ble` TTLV codec.

The definitions below are shallow embeddings of the Rust sources
`src/model/src/ttlv/encode.rs`, `src/model/src/ttlv/decode.rs`,
`src/model/src/ttlv/model.rs`, `src/model/src/commands.rs` and
`src/model/src/quec_ble_device.rs`.  Bytes are `Nat` kept below 256 by
explicit `% 256`; Rust `i32`/`i64`/`u16` casts are spelled out through
two's-complement images.  Rust functions that can panic are modelled as
`Option`-valued functions where the panic is reachable (`none` marks the
panic).
-/

namespace Quec

/-- List indexing `l[i]` of the Rust code.  Every use in the model is
range-guarded exactly as in the source, so the default 0 is never read
on the modelled executions. -/
def byteAt (l : List Nat) (i : Nat) : Nat := l.getD i 0

/-- sum_calculation (encode.rs 147-157 and decode.rs 432-443): 8-bit
wrapping sum of the bytes (the `i == 0` initialisation in the source is
the same as starting the fold from 0 because every input is a `u8`). -/
def sum_calculation (data : List Nat) : Nat :=
  data.foldl (fun a b => (a + b) % 256) 0

/-- get_byte_by_short (encode.rs 268-273): pushes `(value >> 8) & 0xff`
and `value & 0xff` of an `i32`, here computed on its two's-complement
image. -/
def get_byte_by_short (value : Int) : List Nat :=
  let n := (value % 4294967296).toNat
  [n / 256 % 256, n % 256]

/-- read_byte_array_short (decode.rs 459-467): `(data[0] << 8) | data[1]`
for the two guarded `u8` arguments (for bytes the or is the sum). -/
def read_byte_array_short (a b : Nat) : Nat := a * 256 + b

/-- Big-endian accumulation used by read_byte_array_long: for `u8`
entries the shift-or loop of the source is this fold. -/
def beNat (l : List Nat) : Nat := l.foldl (fun a b => a * 256 + b) 0

/-- read_byte_array_long (decode.rs 469-482): left-pad the (at most 8)
bytes to 8 entries, accumulate big-endian into an `i64`; the result is
negative when bit 63 is set. -/
def read_byte_array_long (data : List Nat) : Int :=
  let padded := List.replicate (8 - data.length) 0 ++ data
  let n := beNat padded
  if n < 9223372036854775808 then (n : Int) else (n : Int) - 18446744073709551616

/-- find_subsequence (decode.rs 446-457): index of the first occurrence
of `pattern` in `data`. -/
def find_subsequence : (data pattern : List Nat) → Option Nat
  | data, pattern =>
    if data.length < pattern.length then none
    else if pattern.isPrefixOf data then some 0
    else
      match data with
      | [] => none
      | _ :: rest => (find_subsequence rest pattern).map (· + 1)

/-- Scan of garble_buffer (encode.rs 126-145) from its start index: after
any 0xAA whose successor is 0x55 or 0xAA a 0x55 is inserted and the scan
continues past the inserted byte, i.e. at the original successor. -/
def garbleGo : List Nat → List Nat
  | a :: b :: rest =>
    if a = 170 ∧ (b = 85 ∨ b = 170) then a :: 85 :: garbleGo (b :: rest)
    else a :: garbleGo (b :: rest)
  | l => l

/-- garble_buffer (encode.rs 126-145): byte-stuffing starting at index 2
(`count = 2`, so the pair at indices (1,2) is never examined).  On an
empty input the Rust loop bound `arr.len() - 1` underflows the `usize`
and the function panics, modelled by `none`. -/
def garble_buffer (data : List Nat) : Option (List Nat) :=
  if data = [] then none else some (data.take 2 ++ garbleGo (data.drop 2))

/-- Scan of splice_buffer (decode.rs 410-430): whenever the pair
(0xAA, 0x55) is found the 0x55 is removed and the index does not
advance, so a whole run of 0x55s after one 0xAA is removed. -/
def spliceGoF : Nat → List Nat → List Nat
  | fuel + 1, a :: b :: rest =>
    if a = 170 ∧ b = 85 then spliceGoF fuel (a :: rest)
    else a :: spliceGoF fuel (b :: rest)
  | _, l => l

/-- Entry point of the scan: every loop step of the source shortens the
list in view by one (a removal or an emission), so `l.length` steps of
`spliceGoF` always reach a base case and the fuel bound is exact. -/
def spliceGo (l : List Nat) : List Nat := spliceGoF l.length l

/-- splice_buffer (decode.rs 410-430): un-stuffing pass over the whole
buffer (from index 0).  On an empty input the Rust loop bound
`arr.len() - 1` underflows the `usize` and the function panics
(debug: subtract-with-overflow; release: wrap and out-of-bounds index),
modelled by `none`. -/
def splice_buffer (bytes : List Nat) : Option (List Nat) :=
  if bytes = [] then none else some (spliceGo bytes)

/-- Decidable check that no adjacent pair of the list is (0xAA, 0x55). -/
def noAA55 : List Nat → Bool
  | a :: b :: rest => (!(a == 170 && b == 85)) && noAA55 (b :: rest)
  | _ => true

/-- Decidable check for a contiguous 0xAA 0xAA 0x55 triple. -/
def hasAAAA55 : List Nat → Bool
  | a :: b :: c :: rest => (a == 170 && b == 170 && c == 85) || hasAAAA55 (b :: c :: rest)
  | _ => false

mutual

/-- TTLVValue (model.rs 7-16).  `float` appears only on the decode side
of the model and represents the value `mantissa / 10 ^ amp` that the
Rust code stores as an `f64`; the encoder's `f64` branches are outside
the model (see `encode_enum_value`). -/
inductive TTLVValue where
  | vnone : TTLVValue
  | boolean : Bool → TTLVValue
  | str : String → TTLVValue
  | integer : Int → TTLVValue
  | float : Int → Nat → TTLVValue
  | binary : List Nat → TTLVValue
  | tstruct : List TTLVData → TTLVValue

/-- TTLVData (model.rs 80-86): `{id: i32, type_id: i32, ttlv: bool, value}`. -/
inductive TTLVData where
  | mk : Int → Int → Bool → TTLVValue → TTLVData

end

/-- Field accessor for `TTLVData.id`. -/
def TTLVData.id : TTLVData → Int
  | .mk i _ _ _ => i

/-- Field accessor for `TTLVData.type_id`. -/
def TTLVData.typeId : TTLVData → Int
  | .mk _ t _ _ => t

/-- Field accessor for `TTLVData.ttlv` (the carries-a-value flag). -/
def TTLVData.ttlv : TTLVData → Bool
  | .mk _ _ b _ => b

/-- Field accessor for `TTLVData.value`. -/
def TTLVData.value : TTLVData → TTLVValue
  | .mk _ _ _ v => v

/-- TtlvCommandModel (commands.rs 5-9): `{cmd: i32, packet_id: i32, payloads}`. -/
structure TtlvCommandModel where
  cmd : Int
  packetId : Int
  payloads : List TTLVData

/-- TtlvTransparentModel (model.rs 187-191). -/
structure TtlvTransparentModel where
  cmd : Nat
  packetId : Option Nat
  payloads : List Nat

/-- EncodeResult (model.rs 204-209): `{cmd_key: u32, cmd_data, cmd: u16, packet_id: u16}`. -/
structure EncodeResult where
  cmdKey : Nat
  cmdData : List Nat
  cmd : Nat
  packetId : Nat

/-- DoubleNeedValue (model.rs 255-258). -/
structure DoubleNeedValue where
  value : Int
  count : Nat
deriving DecidableEq

/-- DecodeResult (decode.rs 6-11). -/
inductive DecodeResult where
  | success : TtlvCommandModel → DecodeResult
  | transparent : TtlvTransparentModel → DecodeResult
  | incomplete : DecodeResult
  | error : String → DecodeResult

/-- get_serial_num (encode.rs 159-165): increment the `u16` counter
(wrapping, as in release builds), reset to 1000 when the result is
below 1000 or at least 0xFFFF; returns the new value and the new
counter state. -/
def get_serial_num (packetId : Nat) : Nat × Nat :=
  let p := (packetId + 1) % 65536
  if p < 1000 ∨ 65535 ≤ p then (1000, 1000) else (p, p)

/-- Counter state of a fresh `EncodeTools` after `n` calls of
get_serial_num (the constructor sets `packet_id = 0`). -/
def serialStateAfter : Nat → Nat
  | 0 => 0
  | n + 1 => (get_serial_num (serialStateAfter n)).2

/-- Value returned by the `n`-th call (0-based) of get_serial_num on a
fresh `EncodeTools`. -/
def serialNth (n : Nat) : Nat := (get_serial_num (serialStateAfter n)).1

/-- The eight big-endian bytes of the two's-complement image of an i64,
as built by the loop in long_to_byte_array_big_endian (encode.rs 377-381). -/
def beBytes8 (n : Nat) : List Nat :=
  [n / 72057594037927936 % 256, n / 281474976710656 % 256,
   n / 1099511627776 % 256, n / 4294967296 % 256,
   n / 16777216 % 256, n / 65536 % 256, n / 256 % 256, n % 256]

/-- long_to_byte_array_big_endian (encode.rs 370-395): `[0]` for zero,
otherwise the 8 big-endian bytes of the i64 with leading zero bytes
stripped. -/
def long_to_byte_array_big_endian (l : Int) : List Nat :=
  if l = 0 then [0]
  else (beBytes8 ((l % 18446744073709551616).toNat)).dropWhile (· = 0)

/-- get_long_result (encode.rs 315-338) after the `data.parse::<i64>()`
step (string parsing of the decimal rendering of an i64 is the
identity, so the model takes the parsed value directly): descriptor
byte `sign<<7 | (len-1)` followed by the magnitude bytes.  For
`l = i64::MIN` the source's `-value` wraps in release builds, which the
unbounded `Int` negation composed with the two's-complement image in
`long_to_byte_array_big_endian` reproduces. -/
def get_long_result (value : Int) : List Nat :=
  let signAbs : Nat × Int := if value < 0 then (128, -value) else (0, value)
  let parmBuf := if signAbs.2 ≠ 0 then long_to_byte_array_big_endian signAbs.2 else [0]
  (signAbs.1 ||| (parmBuf.length - 1)) :: parmBuf

/-- encode_binary (encode.rs 284-298): 2-byte big-endian length then the
bytes for `Binary`, the empty vector for every other value. -/
def encode_binary (obj : TTLVData) : List Nat :=
  match obj.value with
  | .binary bytes => get_byte_by_short (bytes.length : Int) ++ bytes
  | _ => []

/-- encode_enum_value (encode.rs 300-313).  `Integer(i)` goes through
`get_long_result(&i.to_string())`, i.e. `get_long_result i`.  The
`String` and `Float` branches run Rust decimal-string parsing and `f64`
formatting (get_double_result / extract_double); those floating-point
paths are outside this model and are mapped to `none`; no theorem below
exercises them (the panic reachable on the Float branch is settled
separately through `extract_double`). -/
def encode_enum_value (obj : TTLVData) : Option (List Nat) :=
  match obj.value with
  | .str _ => none
  | .integer i => some (get_long_result i)
  | .float _ _ => none
  | _ => some []

/-- The `((ttlv_id << 3) & 0xFFF8) + (ttlv_type & 0x07)` u16 header
computation of encode.rs 184-186 / 221-223 / 236-238, with the
`as u16` casts of the two i32 fields made explicit. -/
def ttlvHeader (id typeId : Int) : Nat :=
  let id16 := (id % 65536).toNat
  let ty16 := (typeId % 65536).toNat
  (id16 * 8 % 65536) / 8 * 8 + ty16 % 8

mutual

/-- encode_struct_payload (encode.rs 214-266): emits the struct field's
own header again, the 2-byte child count (counting every child,
including the skipped ones), then each child with `ttlv = true`: its
header, then its body; `Boolean` and `None` children emit no body
(their header is already out), struct children recurse (which emits
their header a second time). -/
def encode_struct_payload (obj : TTLVData) : Option (List Nat) :=
  match obj with
  | .mk id typeId _ (.tstruct payloads) =>
    let headerBuf := get_byte_by_short (ttlvHeader id typeId : Int)
    let countBuf := get_byte_by_short (payloads.length : Int)
    (encodeStructChildren payloads).map (fun inner => headerBuf ++ countBuf ++ inner)
  | .mk id typeId _ _ =>
    -- non-Struct value: the source substitutes an empty child vector
    some (get_byte_by_short (ttlvHeader id typeId : Int) ++ get_byte_by_short 0)

/-- Loop body of encode_struct_payload over the children (encode.rs
231-264). -/
def encodeStructChildren : List TTLVData → Option (List Nat)
  | [] => some []
  | objSec :: rest => do
    let r ← encodeStructChildren rest
    if objSec.ttlv = false then pure r
    else
      let headerBufSecSec := get_byte_by_short (ttlvHeader objSec.id objSec.typeId : Int)
      let body ←
        match objSec.value with
        | .binary _ => pure (encode_binary objSec)
        | .boolean _ => pure []
        | .str _ | .integer _ | .float _ _ => encode_enum_value objSec
        | .tstruct _ => encode_struct_payload objSec
        | .vnone => pure []
      pure (headerBufSecSec ++ body ++ r)

end

/-- encode_read_payload_to_buffer (encode.rs 167-174): for a read
command only the 2-byte id of each field is emitted. -/
def encode_read_payload_to_buffer (payloads : List TTLVData) : List Nat :=
  payloads.flatMap (fun obj => get_byte_by_short obj.id)

/-- encode_payload_to_buffer (encode.rs 176-212): fields with
`ttlv = false` emit only their 2-byte id; other fields emit the 2-byte
header then the value body (`Binary`/`None` via encode_binary, `Boolean`
nothing, numeric via encode_enum_value, `Struct` via
encode_struct_payload — which re-emits the header). -/
def encode_payload_to_buffer : List TTLVData → Option (List Nat)
  | [] => some []
  | obj :: rest => do
    let r ← encode_payload_to_buffer rest
    if obj.ttlv = false then pure (get_byte_by_short obj.id ++ r)
    else
      let headerBufSec := get_byte_by_short (ttlvHeader obj.id obj.typeId : Int)
      let body ←
        match obj.value with
        | .binary _ | .vnone => pure (encode_binary obj)
        | .boolean _ => pure []
        | .str _ | .integer _ | .float _ _ => encode_enum_value obj
        | .tstruct _ => encode_struct_payload obj
      pure (headerBufSec ++ body ++ r)

/-- The cmd_data envelope built by start_encode_with_packet_id
(encode.rs 46-71): preamble, 2-byte `5 + payload_len`, checksum byte
over everything from the packet id on, packet id, cmd, payload. -/
def buildEnvelope (packetId cmd16 : Nat) (payload : List Nat) : List Nat :=
  let length2 := 5 + payload.length
  let tail := [packetId / 256 % 256, packetId % 256, cmd16 / 256 % 256, cmd16 % 256] ++ payload
  [170, 170, length2 / 256 % 256, length2 % 256, sum_calculation tail] ++ tail

/-- start_encode_with_packet_id (encode.rs 29-80).  The first component
of the state pair threads the `packet_id` counter of `EncodeTools`.
`cmd == 0x0011` selects the read payload; `is_use_packet_id` selects
`model.packet_id & 0xFFFF` over the serial generator; the envelope is
garbled before being stored in the result. -/
def start_encode_with_packet_id (encState : Nat) (model : TtlvCommandModel)
    (isUsePacketId : Bool) : Option (EncodeResult × Nat) := do
  let cmd := (model.cmd % 65536).toNat
  let payload ←
    if cmd = 17 then pure (encode_read_payload_to_buffer model.payloads)
    else encode_payload_to_buffer model.payloads
  let pidSt := if isUsePacketId then ((model.packetId % 65536).toNat, encState)
               else get_serial_num encState
  let cmdData := buildEnvelope pidSt.1 cmd payload
  let data ← garble_buffer cmdData
  pure ({ cmdKey := cmd * 65536 + pidSt.1, cmdData := data, cmd := cmd,
          packetId := pidSt.1 }, pidSt.2)

/-- Split of a character list at '.' separators — the `str.split('.')`
of extract_double. -/
def splitDotAux : List Char → List Char → List (List Char)
  | [], acc => [acc.reverse]
  | c :: rest, acc =>
    if c = '.' then acc.reverse :: splitDotAux rest []
    else splitDotAux rest (c :: acc)

/-- Digit-string parse, the `parse::<i64>()` of extract_double on its
all-digit inputs (at most 16 digits there, so the i64 range is never
left); `none` models the `unwrap` panic on a non-digit. -/
def parseDigits : List Char → Option Nat
  | [] => none
  | cs => cs.foldl (fun acc c =>
      acc.bind (fun a => if '0' ≤ c ∧ c ≤ '9' then some (a * 10 + (c.toNat - 48)) else none))
      (some 0)

/-- extract_double (encode.rs 397-422) applied to the
`format!("{:.15}", value)` rendering of the `f64` (a decimal string
with a 15-digit fraction part, which contains no ',', so the source's
','→'.' replace is the identity and is omitted): split on '.', parse
the fraction; the `panic!` with PARAMS_ERROR on a non-positive fraction
(`num_value <= 0`, i.e. = 0 for digit input) is modelled by `none`;
otherwise trailing zeros are trimmed from the fraction, the integer and
trimmed fraction digits are concatenated and re-parsed, and the trimmed
length becomes the decimal exponent. -/
def extract_double (s : String) : Option DoubleNeedValue :=
  match splitDotAux s.data [] with
  | [last] => (parseDigits last).map (fun v => ⟨(v : Int), 0⟩)
  | p0 :: value2 :: _ => do
    let numValue ← parseDigits value2
    if numValue = 0 then none
    else
      let t := (value2.reverse.dropWhile (fun c => c = '0')).reverse
      let needValue ← parseDigits (p0 ++ t)
      pure ⟨(needValue : Int), t.length⟩
  | [] => none

/-- ParseBinaryData (decode.rs 499-502). -/
structure ParseBinaryData where
  data : List Nat
  offset : Nat

/-- ParseNumData (decode.rs 505-508). -/
structure ParseNumData where
  value : TTLVValue
  offset : Nat

/-- ParseStructData (decode.rs 511-514). -/
structure ParseStructData where
  data : List TTLVData
  offset : Nat

/-- parse_binary (decode.rs 338-358): 2-byte length then that many
bytes; `None` when the guard `offset + 1 >= payload.len()` fires, the
length is zero, or the bytes would overrun. -/
def parse_binary (payload : List Nat) (offset : Nat) : Option ParseBinaryData :=
  if payload.length ≤ offset + 1 then none
  else
    let ttlvLen := read_byte_array_short (byteAt payload offset) (byteAt payload (offset + 1))
    let offset2 := offset + 2
    if 0 < ttlvLen ∧ offset2 + ttlvLen ≤ payload.length then
      some ⟨(payload.drop offset2).take ttlvLen, offset2 + ttlvLen⟩
    else none

/-- parse_enum_value (decode.rs 361-407): descriptor byte
(`negative = (lenbuf & 0xff) >> 7`, `amp = (lenbuf >> 3) & 0x0f`,
`tmp_len = (lenbuf & 0x07) + 1`), then `tmp_len` big-endian magnitude
bytes; `amp = 0` yields an `Integer`, otherwise the `f64`
`final_value / 10^amp`, represented here as `.float final_value amp`. -/
def parse_enum_value (payload : List Nat) (offset : Nat) : Option ParseNumData :=
  if payload.length ≤ offset then none
  else
    let lenbuf := byteAt payload offset
    let offset1 := offset + 1
    let negative := lenbuf % 256 / 128
    let amp := lenbuf / 8 % 16
    let tmpLen := lenbuf % 8 + 1
    if payload.length < offset1 + tmpLen then none
    else
      let buf := (payload.drop offset1).take tmpLen
      let enumValue := read_byte_array_long buf
      let finalValue := if 0 < negative then -enumValue else enumValue
      if 0 < amp then some ⟨.float finalValue amp, offset1 + tmpLen⟩
      else some ⟨.integer finalValue, offset1 + tmpLen⟩

mutual

/-- parse_struct (decode.rs 267-335): 2-byte element count, then that
many elements parsed by the loop `parseStructElems`.  The recursion is
bounded by a fuel parameter: every recursive call advances the offset
by at least 2, so any fuel of at least `payload.length + 1` (as passed
by `parse_payload`) makes the fuel-exhaustion branch unreachable and
the function agree with the source. -/
def parse_struct (fuel : Nat) (payload : List Nat) (offset : Nat) : Option ParseStructData :=
  match fuel with
  | 0 => none
  | f + 1 =>
    if payload.length ≤ offset + 1 then none
    else
      let eleNum := read_byte_array_short (byteAt payload offset) (byteAt payload (offset + 1))
      let r := parseStructElems f payload (offset + 2) eleNum
      some ⟨r.1, r.2⟩

/-- Loop body of parse_struct over the `ele_num` elements (decode.rs
278-329): header, then dispatch on the low 3 bits; a failed binary
parse skips the 2 length bytes and drops the element, failed numeric or
struct parses just drop the element. -/
def parseStructElems (fuel : Nat) (payload : List Nat) (offset remaining : Nat) :
    List TTLVData × Nat :=
  match fuel, remaining with
  | 0, _ => ([], offset)
  | _ + 1, 0 => ([], offset)
  | f + 1, r + 1 =>
    if payload.length ≤ offset + 1 then ([], offset)
    else
      let head := read_byte_array_short (byteAt payload offset) (byteAt payload (offset + 1))
      let offset2 := offset + 2
      let tid := head / 8 % 8192
      let ty := head % 8
      if ty = 3 ∨ ty = 5 then
        match parse_binary payload offset2 with
        | some p =>
          let er := parseStructElems f payload p.offset r
          (.mk (tid : Int) (ty : Int) true (.binary p.data) :: er.1, er.2)
        | none => parseStructElems f payload (offset2 + 2) r
      else if ty = 0 ∨ ty = 1 then
        let er := parseStructElems f payload offset2 r
        (.mk (tid : Int) (ty : Int) true (.boolean (ty = 1)) :: er.1, er.2)
      else if ty = 2 then
        match parse_enum_value payload offset2 with
        | some p =>
          let er := parseStructElems f payload p.offset r
          (.mk (tid : Int) (ty : Int) true p.value :: er.1, er.2)
        | none => parseStructElems f payload offset2 r
      else if ty = 4 then
        match parse_struct f payload offset2 with
        | some p =>
          let er := parseStructElems f payload p.offset r
          (.mk (tid : Int) (ty : Int) true (.tstruct p.data) :: er.1, er.2)
        | none => parseStructElems f payload offset2 r
      else
        parseStructElems f payload offset2 r

end

/-- Payload loop of parse_payload (decode.rs 178-231): same dispatch as
`parseStructElems` but running to the end of the payload instead of a
count, fuelled the same way. -/
def parsePayloadLoop (fuel : Nat) (payload : List Nat) (offset : Nat) : List TTLVData :=
  match fuel with
  | 0 => []
  | f + 1 =>
    if payload.length ≤ offset then []
    else if payload.length ≤ offset + 1 then []
    else
      let head := read_byte_array_short (byteAt payload offset) (byteAt payload (offset + 1))
      let offset2 := offset + 2
      let tid := head / 8 % 8192
      let ty := head % 8
      if ty = 3 ∨ ty = 5 then
        match parse_binary payload offset2 with
        | some p =>
          .mk (tid : Int) (ty : Int) true (.binary p.data) :: parsePayloadLoop f payload p.offset
        | none => parsePayloadLoop f payload (offset2 + 2)
      else if ty = 0 ∨ ty = 1 then
        .mk (tid : Int) (ty : Int) true (.boolean (ty = 1)) :: parsePayloadLoop f payload offset2
      else if ty = 2 then
        match parse_enum_value payload offset2 with
        | some p =>
          .mk (tid : Int) (ty : Int) true p.value :: parsePayloadLoop f payload p.offset
        | none => parsePayloadLoop f payload offset2
      else if ty = 4 then
        match parse_struct f payload offset2 with
        | some p =>
          .mk (tid : Int) (ty : Int) true (.tstruct p.data) :: parsePayloadLoop f payload p.offset
        | none => parsePayloadLoop f payload offset2
      else
        parsePayloadLoop f payload offset2

/-- parse_payload (decode.rs 152-236): packet id and cmd from bytes 5-8
(0 when the frame is too short), then the TTLV payload from byte 9 on. -/
def parse_payload (data : List Nat) : TtlvCommandModel :=
  let packetId := if 7 ≤ data.length then read_byte_array_short (byteAt data 5) (byteAt data 6) else 0
  let cmd := if 9 ≤ data.length then read_byte_array_short (byteAt data 7) (byteAt data 8) else 0
  let payload := data.drop 9
  { cmd := (cmd : Int), packetId := (packetId : Int),
    payloads := parsePayloadLoop (payload.length + 1) payload 0 }

/-- parse_transparent_payload (decode.rs 239-264): packet id, cmd (cast
to u16) and the raw bytes from offset 9. -/
def parse_transparent_payload (data : List Nat) : TtlvTransparentModel :=
  let packetId := if 7 ≤ data.length then read_byte_array_short (byteAt data 5) (byteAt data 6) else 0
  let cmd := if 9 ≤ data.length then read_byte_array_short (byteAt data 7) (byteAt data 8) else 0
  { cmd := cmd % 65536, packetId := some packetId, payloads := data.drop 9 }

/-- crc_security (decode.rs 109-149): checksum over bytes 5.. against
byte 4, rejection of cmd 0 and 0xFFFF, transparent dispatch on cmd
0x0024, otherwise parse_payload.  The `Err` results of the source are
folded into `DecodeResult.error` exactly as packet_slice does. -/
def crc_security (data : List Nat) : DecodeResult :=
  if data.length < 5 then .error "Data too short"
  else
    let nXor := sum_calculation (data.drop 5)
    let oldXor := byteAt data 4
    if nXor = oldXor then
      let cmd := if 9 ≤ data.length then read_byte_array_short (byteAt data 7) (byteAt data 8) else 0
      if cmd = 0 ∨ cmd = 65535 then .error "cmd illegal"
      else if cmd = 36 then .transparent (parse_transparent_payload data)
      else .success (parse_payload data)
    else .error "crc error"

/-- Frame-extraction loop of packet_slice (decode.rs 36-103), fuelled:
every continuing iteration consumes at least 4 buffer bytes, so fuel
`buf.length + 1` (as passed by `packet_slice`) makes the exhaustion
branch unreachable.  Returns the emitted results and the remaining
accumulator. -/
def packetSliceLoop (fuel : Nat) (buf : List Nat) : List DecodeResult × List Nat :=
  match fuel with
  | 0 => ([], buf)
  | f + 1 =>
    if buf = [] then ([], buf)
    else if buf.length < 9 then ([.incomplete], buf)
    else
      match find_subsequence buf [170, 170] with
      | some startIndex =>
        let payloadLen :=
          if startIndex + 3 < buf.length then
            read_byte_array_short (byteAt buf (startIndex + 2)) (byteAt buf (startIndex + 3))
          else 0
        if buf.length < startIndex + payloadLen + 4 then ([.incomplete], buf.drop startIndex)
        else
          let nBufCopy := (buf.drop startIndex).take (payloadLen + 4)
          let rest := buf.drop (startIndex + payloadLen + 4)
          let rs := packetSliceLoop f rest
          (crc_security nBufCopy :: rs.1, rs.2)
      | none =>
        if buf.getLast? = some 170 then ([.incomplete], [170])
        else ([.error "Invalid data - no packet header found"], [])

/-- packet_slice (decode.rs 29-106): append the chunk to the
accumulator, un-stuff the whole buffer (which panics on an empty
buffer, see `splice_buffer`), then extract frames.  Returns the emitted
results together with the accumulator left for the next call. -/
def packet_slice (receiveData chunk : List Nat) : Option (List DecodeResult × List Nat) := do
  let spliced ← splice_buffer (receiveData ++ chunk)
  pure (packetSliceLoop (spliced.length + 1) spliced)

/-- Decoded advertisement descriptor (quec_ble_device.rs 1-18); only
the fields the parser fills from the data are modelled (`id`, `name`,
`mac`, `tag` and the raw copy are constants or caller-filled).  The
source stores `version` as its decimal string and the flag fields as
`i32`; all are non-negative here. -/
structure QuecBLEDeviceModel where
  version : Nat
  productKey : String
  deviceKey : String
  deviceStatus : Nat
  isClDk : Bool
  isWifiConfig : Bool
  isBind : Bool
  isEnableBind : Bool
  capabilitiesBitmask : Nat
  endpointType : Nat
  isOldDevice : Bool
deriving DecidableEq

/-- combine_bytes_to_short (quec_ble_device.rs 101-103):
`(high << 8) | (low & 0xFF)` — for the byte-valued first argument the
or is the sum. -/
def combine_bytes_to_short (high low : Nat) : Nat := high * 256 + low % 256

/-- check_byte_value (quec_ble_device.rs 105-107): `(value >> bit) & 1 == 1`. -/
def check_byte_value (value : Nat) (bit : Nat) : Bool := value / 2 ^ bit % 2 = 1

/-- Two lowercase hex digits of a byte, the `format!("{:02x}", b)` of
bytes_to_hex_string. -/
def byteHex (b : Nat) : String := String.mk [Nat.digitChar (b / 16 % 16), Nat.digitChar (b % 16)]

/-- bytes_to_hex_string (quec_ble_device.rs 109-115). -/
def bytes_to_hex_string (bytes : List Nat) : String := String.join (bytes.map byteHex)

/-- String::from_utf8_lossy modelled byte-per-char; exact for ASCII
data (the only product keys any claim touches), non-ASCII bytes map to
U+FFFD which differs from Rust's multi-byte decoding but no theorem
depends on the product key of non-ASCII input. -/
def utf8LossyAscii (bs : List Nat) : String :=
  String.mk (bs.map (fun b => if b < 128 then Char.ofNat b else Char.ofNat 65533))

/-- decode_data (quec_ble_device.rs 21-99): length guard, skip the
2-byte manufacturer tag, read version, length-prefixed product key and
device key (as lowercase hex), status byte, then flags as
`combine(data[6+p+d], data[5+p+d])` — note the later byte is the high
byte — when `data.len() >= 6+p+d`, else 0.  The body runs inside
`catch_unwind`, so every possible index/slice panic turns the result
into an error, modelled by `none`; in particular the flags read panics
when `data.len() = 6+p+d` exactly. -/
def decode_data (manufacturerData : List Nat) : Option QuecBLEDeviceModel :=
  if manufacturerData.length < 19 then none
  else
    let data := manufacturerData.drop 2
    let version := combine_bytes_to_short (byteAt data 0) (byteAt data 1)
    let pkLength := byteAt data 2
    if data.length < 3 + pkLength then none
    else
      let pk := utf8LossyAscii ((data.drop 3).take pkLength)
      if data.length ≤ 3 + pkLength then none
      else
        let dkLength := byteAt data (3 + pkLength)
        let dkEnd := 4 + pkLength + dkLength
        if data.length < dkEnd then none
        else
          let dk0 := bytes_to_hex_string ((data.drop (4 + pkLength)).take dkLength)
          if data.length ≤ 4 + pkLength + dkLength then none
          else
            let status := byteAt data (4 + pkLength + dkLength)
            let flagsOpt : Option Nat :=
              if 6 + pkLength + dkLength ≤ data.length then
                if 6 + pkLength + dkLength < data.length then
                  some (combine_bytes_to_short (byteAt data (6 + pkLength + dkLength))
                          (byteAt data (5 + pkLength + dkLength)))
                else none
              else some 0
            match flagsOpt with
            | none => none
            | some flags =>
              let dk1 := if check_byte_value flags 8 ∧ dk0.endsWith "0" then dk0.dropRight 1 else dk0
              let dk := if check_byte_value flags 12 then dk1.toUpper else dk1
              some { version := version, productKey := pk, deviceKey := dk,
                     deviceStatus := status,
                     isClDk := check_byte_value flags 0,
                     isWifiConfig := check_byte_value flags 1,
                     isBind := check_byte_value flags 2,
                     isEnableBind := check_byte_value flags 3,
                     capabilitiesBitmask := flags,
                     endpointType := flags / 16 % 16,
                     isOldDevice := check_byte_value flags 8 }

/-- Fields of the exact round-trip class: the field carries a value
(`ttlv = true`), its id fits the unsigned 13-bit header, and the value
matches its type id — booleans as type 0/1, i64-range integers as type
2, non-empty binaries of at most 0xFFFF real bytes as type 3 or 5.
`Str`, `Float`, `None` and `Struct` values are excluded: the first two
take the unmodelled string/f64 encoder paths, a `None` body emits a
header with no body, and struct headers are emitted twice (see the C6
theorems), all of which break the round trip. -/
def canonField (d : TTLVData) : Bool :=
  d.ttlv && decide (0 ≤ d.id) && decide (d.id < 8192) &&
  match d.value with
  | .boolean b => d.typeId == (if b then (1 : Int) else 0)
  | .integer i => d.typeId == 2 && decide (-9223372036854775808 < i) &&
      decide (i < 9223372036854775808)
  | .binary bs => (d.typeId == 3 || d.typeId == 5) && decide (0 < bs.length) &&
      decide (bs.length < 65536) && bs.all (fun b => decide (b < 256))
  | _ => false

/-- Frames of the exact round-trip class: a valid cmd that is neither
the read command 0x0011 nor the transparent command 0x0024, a 16-bit
packet id, and canonical fields. -/
def canonFrame (m : TtlvCommandModel) : Bool :=
  decide (0 < m.cmd) && decide (m.cmd < 65535) && (m.cmd != 17) && (m.cmd != 36) &&
  decide (0 ≤ m.packetId) && decide (m.packetId < 65536) &&
  m.payloads.all canonField

/-! ## Lemmas about the byte-stuffing pass and its reverse -/

theorem noAA55_tail {a : Nat} {l : List Nat} (h : noAA55 (a :: l) = true) : noAA55 l = true := by
  cases l with
  | nil => rfl
  | cons b r =>
    have h' := h
    simp only [noAA55, Bool.and_eq_true] at h'
    exact h'.2

theorem noAA55_head {a b : Nat} {l : List Nat} (h : noAA55 (a :: b :: l) = true) :
    ¬(a = 170 ∧ b = 85) := by
  simp only [noAA55, Bool.and_eq_true, Bool.not_eq_true', Bool.and_eq_false_iff,
    beq_eq_false_iff_ne, ne_eq] at h
  rcases h.1 with h1 | h1 <;> exact fun hc => h1 (by omega)

theorem garbleGo_head? (l : List Nat) : (garbleGo l).head? = l.head? := by
  match l with
  | [] => rfl
  | [x] => rfl
  | a :: b :: r =>
    rw [garbleGo]
    split <;> rfl

theorem spliceGo_nil : spliceGo [] = [] := rfl

theorem spliceGo_cons (a : Nat) (T : List Nat) (h : ¬(a = 170 ∧ T.head? = some 85)) :
    spliceGo (a :: T) = a :: spliceGo T := by
  cases T with
  | nil => rfl
  | cons b r =>
    show spliceGoF ((b :: r).length + 1) (a :: b :: r) = a :: spliceGoF (b :: r).length (b :: r)
    rw [spliceGoF]
    rw [if_neg]
    intro hc
    exact h ⟨hc.1, by rw [hc.2]; rfl⟩

theorem spliceGo_remove (T : List Nat) : spliceGo (170 :: 85 :: T) = spliceGo (170 :: T) := by
  show spliceGoF (T.length + 1 + 1) (170 :: 85 :: T) = spliceGoF (T.length + 1) (170 :: T)
  rw [spliceGoF]
  rw [if_pos ⟨rfl, rfl⟩]

theorem spliceGo_garbleGo : ∀ (n : Nat) (l : List Nat), l.length ≤ n → noAA55 l = true →
    spliceGo (garbleGo l) = l := by
  intro n
  induction n with
  | zero =>
    intro l hl _
    have : l = [] := List.length_eq_zero.mp (Nat.le_zero.mp hl)
    subst this
    rfl
  | succ n ih =>
    intro l hl h
    match l with
    | [] => rfl
    | [x] => rfl
    | a :: b :: r =>
      have hab := noAA55_head h
      have htail : noAA55 (b :: r) = true := noAA55_tail h
      have hlen : (b :: r).length ≤ n := by
        simpa using Nat.lt_succ_iff.mp (by simpa using hl)
      by_cases hcond : a = 170 ∧ (b = 85 ∨ b = 170)
      · have ha : a = 170 := hcond.1
        have hb : b = 170 := by
          rcases hcond.2 with h85 | h170
          · exact absurd ⟨hcond.1, h85⟩ hab
          · exact h170
        rw [garbleGo, if_pos hcond, ha, hb]
        rw [hb] at htail hlen
        rw [spliceGo_remove, spliceGo_cons 170 (garbleGo (170 :: r))
          (by rw [garbleGo_head?]; rintro ⟨-, hh⟩; simp at hh)]
        rw [ih (170 :: r) hlen htail]
      · rw [garbleGo, if_neg hcond]
        rw [spliceGo_cons a (garbleGo (b :: r))]
        · rw [ih (b :: r) hlen htail]
        · rw [garbleGo_head?]
          rintro ⟨ha, hh⟩
          simp only [List.head?_cons, Option.some.injEq] at hh
          exact hab ⟨ha, hh⟩

/-- Core inverse property: un-stuffing undoes stuffing on every
non-empty buffer without an adjacent 0xAA 0x55 pair. -/
theorem splice_garble_inverse (B : List Nat) (hne : B ≠ []) (h : noAA55 B = true) :
    (garble_buffer B).bind splice_buffer = some B := by
  match B with
  | [x] => rfl
  | a :: b :: L =>
    have h1 : ¬(a = 170 ∧ b = 85) := noAA55_head h
    have hBL : noAA55 (b :: L) = true := noAA55_tail h
    have hL : noAA55 L = true := noAA55_tail hBL
    have hg : garble_buffer (a :: b :: L) = some (a :: b :: garbleGo L) := by
      simp [garble_buffer]
    rw [hg]
    have hne2 : a :: b :: garbleGo L ≠ [] := by simp
    show splice_buffer (a :: b :: garbleGo L) = some (a :: b :: L)
    simp only [splice_buffer, if_neg hne2]
    rw [spliceGo_cons a (b :: garbleGo L) (by
      rintro ⟨ha, hh⟩
      simp only [List.head?_cons, Option.some.injEq] at hh
      exact h1 ⟨ha, hh⟩)]
    rw [spliceGo_cons b (garbleGo L) (by
      rw [garbleGo_head?]
      rintro ⟨hb, hh⟩
      cases L with
      | nil => simp at hh
      | cons c t =>
        simp only [List.head?_cons, Option.some.injEq] at hh
        exact noAA55_head hBL ⟨hb, hh⟩)]
    rw [spliceGo_garbleGo L.length L le_rfl hL]

/-! ## Lemmas about the serial packet-id generator -/

theorem get_serial_num_fst_eq_snd (s : Nat) : (get_serial_num s).1 = (get_serial_num s).2 := by
  simp only [get_serial_num]
  split <;> rfl

theorem serialStateAfter_succ (n : Nat) : serialStateAfter (n + 1) = 1000 + n % 64535 := by
  induction n with
  | zero => rfl
  | succ n ih =>
    show (get_serial_num (serialStateAfter (n + 1))).2 = 1000 + (n + 1) % 64535
    rw [ih]
    simp only [get_serial_num]
    split <;> omega

theorem serialNth_eq (n : Nat) : serialNth n = 1000 + n % 64535 := by
  cases n with
  | zero => rfl
  | succ n =>
    show (get_serial_num (serialStateAfter (n + 1))).1 = 1000 + (n + 1) % 64535
    rw [get_serial_num_fst_eq_snd]
    exact serialStateAfter_succ (n + 1)

/-! ## List and byte-arithmetic helpers -/

theorem getD_of_drop : ∀ {l : List Nat} {n a : Nat} {t : List Nat}, l.drop n = a :: t →
    l.getD n 0 = a := by
  intro l n
  induction n generalizing l with
  | zero =>
    intro a t h
    rw [List.drop_zero] at h
    subst h
    rfl
  | succ n ih =>
    intro a t h
    cases l with
    | nil => simp at h
    | cons x xs => exact ih (by simpa using h)

theorem drop_succ_of_drop {l : List Nat} {n a : Nat} {t : List Nat} (h : l.drop n = a :: t) :
    l.drop (n + 1) = t := by
  have h2 : l.drop (n + 1) = (l.drop n).drop 1 := by
    rw [List.drop_drop]
  rw [h2, h]
  rfl

theorem drop_add_of_drop_append {l B R : List Nat} {n : Nat} (h : l.drop n = B ++ R) :
    l.drop (n + B.length) = R := by
  have h2 : l.drop (n + B.length) = (l.drop n).drop B.length := by
    rw [List.drop_drop, Nat.add_comm]
  rw [h2, h, List.drop_left]

theorem take_of_drop_append {l B R : List Nat} {n : Nat} (h : l.drop n = B ++ R) :
    (l.drop n).take B.length = B := by
  rw [h, List.take_left]

theorem length_sub_of_drop {l P : List Nat} {n : Nat} (h : l.drop n = P) :
    l.length - n = P.length := by
  have := congrArg List.length h
  simpa using this

theorem get_byte_by_short_eq (v : Nat) (h : v < 65536) :
    get_byte_by_short (v : Int) = [v / 256, v % 256] := by
  simp only [get_byte_by_short]
  have h1 : (((v : Int)) % 4294967296).toNat = v := by omega
  rw [h1]
  have h2 : v / 256 % 256 = v / 256 := Nat.mod_eq_of_lt (by omega)
  rw [h2]

theorem ttlvHeader_eq (id ty : Int) (h1 : 0 ≤ id) (h2 : id < 8192) (h3 : 0 ≤ ty)
    (h4 : ty < 8) : ttlvHeader id ty = 8 * id.toNat + ty.toNat := by
  simp only [ttlvHeader]
  have e1 : ((id % 65536)).toNat = id.toNat := by omega
  have e2 : ((ty % 65536)).toNat = ty.toNat := by omega
  rw [e1, e2]
  have e3 : id.toNat * 8 % 65536 = id.toNat * 8 := Nat.mod_eq_of_lt (by omega)
  rw [e3]
  have e4 : ty.toNat % 8 = ty.toNat := Nat.mod_eq_of_lt (by omega)
  rw [e4]
  omega

theorem beNat_cons_zero (l : List Nat) : beNat (0 :: l) = beNat l := by
  simp [beNat]

theorem beNat_replicate_zero (k : Nat) (l : List Nat) :
    beNat (List.replicate k 0 ++ l) = beNat l := by
  induction k with
  | zero => rfl
  | succ k ih => rw [List.replicate_succ, List.cons_append, beNat_cons_zero, ih]

theorem dropWhile_length_le (p : Nat → Bool) (l : List Nat) :
    (l.dropWhile p).length ≤ l.length := by
  induction l with
  | nil => simp
  | cons a t ih =>
    rw [List.dropWhile_cons]
    split
    · exact Nat.le_succ_of_le ih
    · simp

theorem mem_of_mem_dropWhile {p : Nat → Bool} {l : List Nat} {x : Nat}
    (h : x ∈ l.dropWhile p) : x ∈ l := by
  induction l with
  | nil => simp at h
  | cons a t ih =>
    rw [List.dropWhile_cons] at h
    by_cases hp : p a = true
    · rw [if_pos hp] at h
      exact List.mem_cons_of_mem a (ih h)
    · rw [if_neg hp] at h
      exact h

theorem beNat_dropWhile_zero (l : List Nat) : beNat (l.dropWhile (· = 0)) = beNat l := by
  induction l with
  | nil => rfl
  | cons a t ih =>
    rw [List.dropWhile_cons]
    split
    · next ha =>
      have : a = 0 := by simpa using ha
      subst this
      rw [ih, beNat_cons_zero]
    · rfl

theorem beNat_beBytes8 (n : Nat) (h : n < 18446744073709551616) : beNat (beBytes8 n) = n := by
  simp only [beBytes8, beNat, List.foldl]
  omega

theorem beBytes8_mem_lt (n : Nat) : ∀ x ∈ beBytes8 n, x < 256 := by
  intro x hx
  simp only [beBytes8, List.mem_cons, List.not_mem_nil, or_false] at hx
  rcases hx with h | h | h | h | h | h | h | h <;> omega

theorem lor_128 (x : Nat) (h : x < 8) : 128 ||| x = 128 + x := by
  interval_cases x <;> rfl

/-- Behaviour of the magnitude encoder on the i64 range: the decoder's
big-endian read recovers the value, the byte list is 1 to 8 bytes of
values below 256. -/
theorem long_to_byte_spec (n : Nat) (h0 : 0 < n) (h : n < 9223372036854775808) :
    read_byte_array_long (long_to_byte_array_big_endian (n : Int)) = (n : Int) ∧
    0 < (long_to_byte_array_big_endian (n : Int)).length ∧
    (long_to_byte_array_big_endian (n : Int)).length ≤ 8 ∧
    ∀ x ∈ long_to_byte_array_big_endian (n : Int), x < 256 := by
  have hne : (n : Int) ≠ 0 := by omega
  have hmod : (((n : Int)) % 18446744073709551616).toNat = n := by omega
  have hdef : long_to_byte_array_big_endian (n : Int) = (beBytes8 n).dropWhile (· = 0) := by
    simp only [long_to_byte_array_big_endian, if_neg hne, hmod]
  rw [hdef]
  have hben : beNat ((beBytes8 n).dropWhile (· = 0)) = n := by
    rw [beNat_dropWhile_zero, beNat_beBytes8 n (by omega)]
  have hlen8 : ((beBytes8 n).dropWhile (· = 0)).length ≤ 8 := by
    calc ((beBytes8 n).dropWhile (· = 0)).length ≤ (beBytes8 n).length :=
          dropWhile_length_le _ _
      _ = 8 := rfl
  have hpos : 0 < ((beBytes8 n).dropWhile (· = 0)).length := by
    by_contra hc
    have hnil : (beBytes8 n).dropWhile (· = 0) = [] := List.length_eq_zero.mp (by omega)
    rw [hnil] at hben
    simp [beNat] at hben
    omega
  refine ⟨?_, hpos, hlen8, ?_⟩
  · simp only [read_byte_array_long, beNat_replicate_zero, hben]
    rw [if_pos (by omega)]
  · intro x hx
    exact beBytes8_mem_lt n x (mem_of_mem_dropWhile hx)

/-- Structure of get_long_result for i64-range integers: a descriptor
byte carrying the sign bit and the magnitude length, then the magnitude
bytes, which read back to the absolute value. -/
theorem get_long_result_spec (i : Int) (hl : -9223372036854775808 < i)
    (hh : i < 9223372036854775808) :
    ∃ mag : List Nat,
      get_long_result i = ((if i < 0 then 128 else 0) + (mag.length - 1)) :: mag ∧
      0 < mag.length ∧ mag.length ≤ 8 ∧ (∀ x ∈ mag, x < 256) ∧
      read_byte_array_long mag = (if i < 0 then -i else i) := by
  by_cases hz : i = 0
  · subst hz
    exact ⟨[0], by decide, by decide, by decide, by decide, by decide⟩
  · by_cases hneg : i < 0
    · have hn0 : 0 < (-i).toNat := by omega
      have hnlt : (-i).toNat < 9223372036854775808 := by omega
      obtain ⟨hread, hpos, hlen, hbytes⟩ := long_to_byte_spec (-i).toNat hn0 hnlt
      have hcast : ((((-i).toNat) : Nat) : Int) = -i := by omega
      rw [hcast] at hread hpos hlen hbytes
      refine ⟨long_to_byte_array_big_endian (-i), ?_, hpos, hlen, hbytes, ?_⟩
      · simp only [get_long_result, if_pos hneg]
        rw [if_pos (by omega : (-i) ≠ 0)]
        congr 1
        exact lor_128 _ (by omega)
      · rw [hread, if_pos hneg]
    · have hn0 : 0 < i.toNat := by omega
      have hnlt : i.toNat < 9223372036854775808 := by omega
      obtain ⟨hread, hpos, hlen, hbytes⟩ := long_to_byte_spec i.toNat hn0 hnlt
      have hcast : (((i.toNat) : Nat) : Int) = i := by omega
      rw [hcast] at hread hpos hlen hbytes
      refine ⟨long_to_byte_array_big_endian i, ?_, hpos, hlen, hbytes, ?_⟩
      · simp only [get_long_result, if_neg hneg]
        rw [if_pos hz]
        congr 1
        simp
      · rw [hread, if_neg hneg]

/-! ## Inversion lemmas: the payload parser on encoder output -/

theorem byteAt_of_drop2 {l : List Nat} {n x y : Nat} {t : List Nat}
    (h : l.drop n = x :: y :: t) :
    byteAt l n = x ∧ byteAt l (n + 1) = y ∧ l.drop (n + 2) = t := by
  refine ⟨getD_of_drop h, getD_of_drop (drop_succ_of_drop h), ?_⟩
  have h2 := drop_succ_of_drop (drop_succ_of_drop h)
  simpa [Nat.add_assoc] using h2

/-- Reading back a 2-byte header written by get_byte_by_short. -/
theorem read_head_of_encoded {payload : List Nat} {offset h16 : Nat} {R : List Nat}
    (hlt : h16 < 65536)
    (hdrop : payload.drop offset = get_byte_by_short (h16 : Int) ++ R) :
    read_byte_array_short (byteAt payload offset) (byteAt payload (offset + 1)) = h16 ∧
    payload.drop (offset + 2) = R := by
  rw [get_byte_by_short_eq h16 hlt] at hdrop
  obtain ⟨hx, hy, ht⟩ := byteAt_of_drop2 hdrop
  refine ⟨?_, ht⟩
  rw [hx, hy, read_byte_array_short]
  omega

/-- parse_binary recovers a non-empty binary body emitted by
encode_binary. -/
theorem parse_binary_of_encoded {payload : List Nat} {offset : Nat} {bs R : List Nat}
    (h1 : 0 < bs.length) (h2 : bs.length < 65536)
    (hdrop : payload.drop offset = (get_byte_by_short ((bs.length : Nat) : Int) ++ bs) ++ R) :
    parse_binary payload offset = some ⟨bs, offset + 2 + bs.length⟩ := by
  rw [List.append_assoc] at hdrop
  obtain ⟨hread, hrest⟩ := read_head_of_encoded h2 hdrop
  have hlen : payload.length - offset = 2 + (bs.length + R.length) := by
    have h3 := length_sub_of_drop hdrop
    simp [get_byte_by_short_eq bs.length h2] at h3
    omega
  simp only [parse_binary]
  rw [if_neg (by omega)]
  rw [hread]
  rw [if_pos ⟨h1, by omega⟩]
  rw [take_of_drop_append hrest]

/-- parse_enum_value recovers an i64-range integer emitted by
get_long_result, and advances exactly past its bytes. -/
theorem parse_enum_of_encoded {payload : List Nat} {offset : Nat} {i : Int} {R : List Nat}
    (hl : -9223372036854775808 < i) (hh : i < 9223372036854775808)
    (hdrop : payload.drop offset = get_long_result i ++ R) :
    parse_enum_value payload offset =
      some ⟨.integer i, offset + (get_long_result i).length⟩ := by
  obtain ⟨mag, heq, hpos, hlen8, hbytes, hread⟩ := get_long_result_spec i hl hh
  rw [heq] at hdrop ⊢
  set s : Nat := if i < 0 then 128 else 0 with hs
  have hs08 : s = 0 ∨ s = 128 := by
    rw [hs]; split
    · right; rfl
    · left; rfl
  set d : Nat := s + (mag.length - 1) with hd
  rw [List.cons_append] at hdrop
  have hb0 : byteAt payload offset = d := getD_of_drop hdrop
  have hrest : payload.drop (offset + 1) = mag ++ R := drop_succ_of_drop hdrop
  have hlend : payload.length - offset = 1 + (mag.length + R.length) := by
    have h3 := length_sub_of_drop hdrop
    simp at h3
    omega
  have hdlt : d < 256 := by omega
  simp only [parse_enum_value]
  rw [if_neg (by omega)]
  rw [hb0]
  have hneg' : d % 256 / 128 = (if i < 0 then 1 else 0) := by
    rw [hs] at hd
    split <;> rename_i hsign
    · simp only [if_pos hsign] at hd; omega
    · simp only [if_neg hsign] at hd; omega
  have hamp : d / 8 % 16 = 0 := by omega
  have htmp : d % 8 + 1 = mag.length := by omega
  rw [hneg', hamp, htmp]
  rw [if_neg (by omega)]
  have hbuf : (payload.drop (offset + 1)).take mag.length = mag := take_of_drop_append hrest
  rw [hbuf, hread]
  rw [if_neg (by omega : ¬ 0 < 0)]
  have hfin : (if 0 < (if i < 0 then 1 else 0) then -(if i < 0 then -i else i)
      else (if i < 0 then -i else i)) = i := by
    by_cases hc : i < 0
    · simp [hc]
    · simp [hc]
  rw [hfin]
  have hlen1 : offset + 1 + mag.length = offset + (d :: mag).length := by
    simp only [List.length_cons]
    omega
  rw [hlen1]

/-! ## Shape of the payload encoder on canonical fields -/

theorem encode_cons_bool (id ty : Int) (b : Bool) (fs : List TTLVData) :
    encode_payload_to_buffer (.mk id ty true (.boolean b) :: fs) =
      (encode_payload_to_buffer fs).map
        (fun r => get_byte_by_short ((ttlvHeader id ty : Nat) : Int) ++ r) := by
  cases henc : encode_payload_to_buffer fs <;>
    simp [encode_payload_to_buffer, henc, TTLVData.ttlv, TTLVData.value, TTLVData.id,
      TTLVData.typeId]

theorem encode_cons_int (id ty i : Int) (fs : List TTLVData) :
    encode_payload_to_buffer (.mk id ty true (.integer i) :: fs) =
      (encode_payload_to_buffer fs).map
        (fun r => get_byte_by_short ((ttlvHeader id ty : Nat) : Int) ++
          (get_long_result i ++ r)) := by
  cases henc : encode_payload_to_buffer fs <;>
    simp [encode_payload_to_buffer, henc, encode_enum_value, TTLVData.ttlv, TTLVData.value,
      TTLVData.id, TTLVData.typeId]

theorem encode_cons_bin (id ty : Int) (bs : List Nat) (fs : List TTLVData) :
    encode_payload_to_buffer (.mk id ty true (.binary bs) :: fs) =
      (encode_payload_to_buffer fs).map
        (fun r => get_byte_by_short ((ttlvHeader id ty : Nat) : Int) ++
          ((get_byte_by_short ((bs.length : Nat) : Int) ++ bs) ++ r)) := by
  cases henc : encode_payload_to_buffer fs <;>
    simp [encode_payload_to_buffer, henc, encode_binary, TTLVData.ttlv, TTLVData.value,
      TTLVData.id, TTLVData.typeId]

theorem get_byte_by_short_length (v : Int) : (get_byte_by_short v).length = 2 := rfl

/-! ## The payload parser inverts the payload encoder on canonical fields -/

theorem parseLoop_inverts :
    ∀ (fs : List TTLVData), fs.all canonField = true →
    ∀ (P payload : List Nat), encode_payload_to_buffer fs = some P →
    ∀ (offset f : Nat), payload.drop offset = P →
      payload.length + 1 - offset ≤ f →
      parsePayloadLoop f payload offset = fs := by
  intro fs
  induction fs with
  | nil =>
    intro _ P payload hP offset f hdrop hf
    have hPe : P = [] := by
      simp [encode_payload_to_buffer] at hP
      exact hP
    subst hPe
    have hlen : payload.length - offset = 0 := by simpa using length_sub_of_drop hdrop
    cases f with
    | zero => rfl
    | succ f => simp only [parsePayloadLoop, if_pos (by omega : payload.length ≤ offset)]
  | cons d fs ih =>
    intro hall P payload hP offset f hdrop hf
    rw [List.all_cons, Bool.and_eq_true] at hall
    obtain ⟨hcd, hcfs⟩ := hall
    obtain ⟨id, ty, tt, v⟩ := d
    cases v with
    | vnone => simp [canonField, TTLVData.ttlv, TTLVData.value] at hcd
    | str sv => simp [canonField, TTLVData.ttlv, TTLVData.value] at hcd
    | float fm fa => simp [canonField, TTLVData.ttlv, TTLVData.value] at hcd
    | tstruct cs => simp [canonField, TTLVData.ttlv, TTLVData.value] at hcd
    | boolean b =>
      simp only [canonField, TTLVData.ttlv, TTLVData.value, TTLVData.id, TTLVData.typeId,
        Bool.and_eq_true, decide_eq_true_eq, beq_iff_eq] at hcd
      obtain ⟨⟨⟨htt, hid0⟩, hid1⟩, hty⟩ := hcd
      subst htt
      cases henc : encode_payload_to_buffer fs with
      | none => rw [encode_cons_bool, henc] at hP; simp at hP
      | some r =>
        rw [encode_cons_bool, henc] at hP
        simp only [Option.map_some', Option.some.injEq] at hP
        subst hP
        have htybound : (0 : Int) ≤ ty ∧ ty < 8 := by
          constructor <;> (rw [hty]; split <;> omega)
        have hhdr := ttlvHeader_eq id ty hid0 hid1 htybound.1 htybound.2
        have hhlt : ttlvHeader id ty < 65536 := by omega
        obtain ⟨hread, hrest⟩ := read_head_of_encoded hhlt hdrop
        have hsub : payload.length - offset = 2 + r.length := by
          have h3 := length_sub_of_drop hdrop
          simp [get_byte_by_short] at h3
          omega
        cases f with
        | zero => omega
        | succ f =>
          simp only [parsePayloadLoop]
          rw [if_neg (by omega), if_neg (by omega)]
          rw [hread, hhdr]
          have htyN : ty.toNat < 2 := by rw [hty]; split <;> simp
          have hmod : (8 * id.toNat + ty.toNat) % 8 = ty.toNat :=
            by omega
          have hdiv : (8 * id.toNat + ty.toNat) / 8 % 8192 = id.toNat := by omega
          rw [if_neg (by omega)]
          rw [if_pos (by omega : (8 * id.toNat + ty.toNat) % 8 = 0 ∨
            (8 * id.toNat + ty.toNat) % 8 = 1)]
          have hfield : TTLVData.mk (((8 * id.toNat + ty.toNat) / 8 % 8192 : Nat) : Int)
              (((8 * id.toNat + ty.toNat) % 8 : Nat) : Int) true
              (.boolean ((8 * id.toNat + ty.toNat) % 8 = 1)) =
              TTLVData.mk id ty true (.boolean b) := by
            rw [hmod, hdiv]
            congr 1
            · omega
            · omega
            · congr 1
              rw [hty]
              cases b <;> simp
          rw [hfield]
          congr 1
          exact ih hcfs r payload henc (offset + 2) f hrest (by omega)
    | integer i =>
      simp only [canonField, TTLVData.ttlv, TTLVData.value, TTLVData.id, TTLVData.typeId,
        Bool.and_eq_true, decide_eq_true_eq, beq_iff_eq] at hcd
      obtain ⟨⟨⟨htt, hid0⟩, hid1⟩, ⟨hty, hil⟩, hih⟩ := hcd
      subst htt
      cases henc : encode_payload_to_buffer fs with
      | none => rw [encode_cons_int, henc] at hP; simp at hP
      | some r =>
        rw [encode_cons_int, henc] at hP
        simp only [Option.map_some', Option.some.injEq] at hP
        subst hP
        have hhdr := ttlvHeader_eq id ty hid0 hid1 (by omega) (by omega)
        have hhlt : ttlvHeader id ty < 65536 := by omega
        obtain ⟨hread, hrest⟩ := read_head_of_encoded hhlt hdrop
        obtain ⟨mag, heqm, hposm, hlen8m, _, _⟩ := get_long_result_spec i (by omega) (by omega)
        have hgll : (get_long_result i).length = 1 + mag.length := by
          rw [heqm]; simp; omega
        have hsub : payload.length - offset = 2 + ((get_long_result i).length + r.length) := by
          have h3 := length_sub_of_drop hdrop
          simp [get_byte_by_short] at h3
          omega
        have hpe := @parse_enum_of_encoded payload (offset + 2) i r (by omega) (by omega) hrest
        cases f with
        | zero => omega
        | succ f =>
          simp only [parsePayloadLoop]
          rw [if_neg (by omega), if_neg (by omega)]
          rw [hread, hhdr]
          have hmod : (8 * id.toNat + ty.toNat) % 8 = 2 := by omega
          have hdiv : (8 * id.toNat + ty.toNat) / 8 % 8192 = id.toNat := by omega
          rw [if_neg (by omega), if_neg (by omega), if_pos hmod]
          rw [hpe]
          have hfield : TTLVData.mk (((8 * id.toNat + ty.toNat) / 8 % 8192 : Nat) : Int)
              (((8 * id.toNat + ty.toNat) % 8 : Nat) : Int) true (.integer i) =
              TTLVData.mk id ty true (.integer i) := by
            rw [hmod, hdiv]
            congr 1 <;> omega
          have hgoal : TTLVData.mk (((8 * id.toNat + ty.toNat) / 8 % 8192 : Nat) : Int)
              (((8 * id.toNat + ty.toNat) % 8 : Nat) : Int) true (TTLVValue.integer i) ::
              parsePayloadLoop f payload (offset + 2 + (get_long_result i).length) =
              TTLVData.mk id ty true (TTLVValue.integer i) :: fs := by
            rw [hfield]
            congr 1
            exact ih hcfs r payload henc (offset + 2 + (get_long_result i).length) f
              (drop_add_of_drop_append hrest) (by omega)
          exact hgoal
    | binary bs =>
      simp only [canonField, TTLVData.ttlv, TTLVData.value, TTLVData.id, TTLVData.typeId,
        Bool.and_eq_true, Bool.or_eq_true, decide_eq_true_eq, beq_iff_eq,
        List.all_eq_true] at hcd
      obtain ⟨⟨⟨htt, hid0⟩, hid1⟩, ⟨⟨hty35, hbs0⟩, hbs1⟩, _⟩ := hcd
      subst htt
      cases henc : encode_payload_to_buffer fs with
      | none => rw [encode_cons_bin, henc] at hP; simp at hP
      | some r =>
        rw [encode_cons_bin, henc] at hP
        simp only [Option.map_some', Option.some.injEq] at hP
        subst hP
        have htyb : (0 : Int) ≤ ty ∧ ty < 8 := by
          rcases hty35 with h | h <;> rw [h] <;> omega
        have hhdr := ttlvHeader_eq id ty hid0 hid1 htyb.1 htyb.2
        have hhlt : ttlvHeader id ty < 65536 := by omega
        obtain ⟨hread, hrest⟩ := read_head_of_encoded hhlt hdrop
        have hpb := @parse_binary_of_encoded payload (offset + 2) bs r hbs0 hbs1 hrest
        have hsub : payload.length - offset = 2 + (2 + (bs.length + r.length)) := by
          have h3 := length_sub_of_drop hdrop
          simp [get_byte_by_short] at h3
          omega
        cases f with
        | zero => omega
        | succ f =>
          simp only [parsePayloadLoop]
          rw [if_neg (by omega), if_neg (by omega)]
          rw [hread, hhdr]
          have hmod : (8 * id.toNat + ty.toNat) % 8 = ty.toNat := by omega
          have hdiv : (8 * id.toNat + ty.toNat) / 8 % 8192 = id.toNat := by omega
          have hcond : (8 * id.toNat + ty.toNat) % 8 = 3 ∨ (8 * id.toNat + ty.toNat) % 8 = 5 := by
            rcases hty35 with h | h
            · left; omega
            · right; omega
          rw [if_pos hcond]
          rw [hpb]
          have hfield : TTLVData.mk (((8 * id.toNat + ty.toNat) / 8 % 8192 : Nat) : Int)
              (((8 * id.toNat + ty.toNat) % 8 : Nat) : Int) true (.binary bs) =
              TTLVData.mk id ty true (.binary bs) := by
            rw [hmod, hdiv]
            congr 1 <;> omega
          have hdrop2 : payload.drop (offset + 2 + 2 + bs.length) = r := by
            have h4 := @drop_add_of_drop_append payload
              (get_byte_by_short ((bs.length : Nat) : Int) ++ bs) r (offset + 2) hrest
            have h5 : (get_byte_by_short ((bs.length : Nat) : Int) ++ bs).length =
                2 + bs.length := by
              simp [get_byte_by_short_length]
            rw [h5] at h4
            have h6 : offset + 2 + (2 + bs.length) = offset + 2 + 2 + bs.length := by omega
            rw [h6] at h4
            exact h4
          have hgoal : TTLVData.mk (((8 * id.toNat + ty.toNat) / 8 % 8192 : Nat) : Int)
              (((8 * id.toNat + ty.toNat) % 8 : Nat) : Int) true (TTLVValue.binary bs) ::
              parsePayloadLoop f payload (offset + 2 + 2 + bs.length) =
              TTLVData.mk id ty true (TTLVValue.binary bs) :: fs := by
            rw [hfield]
            congr 1
            exact ih hcfs r payload henc (offset + 2 + 2 + bs.length) f hdrop2 (by omega)
          exact hgoal

/-! ## The envelope, the frame-extraction loop and crc_security -/

theorem buildEnvelope_parts (pid cmd : Nat) (P : List Nat) :
    buildEnvelope pid cmd P =
      170 :: 170 :: ((5 + P.length) / 256 % 256) :: ((5 + P.length) % 256) ::
      sum_calculation (pid / 256 % 256 :: pid % 256 :: cmd / 256 % 256 :: cmd % 256 :: P) ::
      pid / 256 % 256 :: pid % 256 :: cmd / 256 % 256 :: cmd % 256 :: P := by
  simp [buildEnvelope]

theorem buildEnvelope_length (pid cmd : Nat) (P : List Nat) :
    (buildEnvelope pid cmd P).length = 9 + P.length := by
  rw [buildEnvelope_parts]
  simp
  omega

theorem find_subsequence_head (l : List Nat) :
    find_subsequence (170 :: 170 :: l) [170, 170] = some 0 := by
  rw [find_subsequence]
  rw [if_neg (by simp)]
  rw [if_pos (by simp [List.isPrefixOf])]

theorem packetSliceLoop_empty (f : Nat) : packetSliceLoop f [] = ([], []) := by
  cases f <;> rfl

set_option maxHeartbeats 1000000 in
/-- Feeding the loop exactly one whole envelope yields exactly one
result, the crc_security verdict on that envelope, and drains the
accumulator. -/
theorem packetSliceLoop_single (pid cmd : Nat) (P : List Nat)
    (hlen2 : 5 + P.length < 65536) :
    packetSliceLoop ((buildEnvelope pid cmd P).length + 1) (buildEnvelope pid cmd P) =
      ([crc_security (buildEnvelope pid cmd P)], []) := by
  have hexp := buildEnvelope_parts pid cmd P
  have hlen := buildEnvelope_length pid cmd P
  have hne : buildEnvelope pid cmd P ≠ [] := by rw [hexp]; simp
  have hfind : find_subsequence (buildEnvelope pid cmd P) [170, 170] = some 0 := by
    rw [hexp]; exact find_subsequence_head _
  have hb2 : byteAt (buildEnvelope pid cmd P) 2 = (5 + P.length) / 256 % 256 := by
    rw [hexp]; simp [byteAt]
  have hb3 : byteAt (buildEnvelope pid cmd P) 3 = (5 + P.length) % 256 := by
    rw [hexp]; simp [byteAt]
  rw [packetSliceLoop]
  rw [if_neg hne, if_neg (by omega), hfind]
  simp only []
  rw [if_pos (by omega : 0 + 3 < (buildEnvelope pid cmd P).length)]
  rw [hb2, hb3]
  have hread : read_byte_array_short ((5 + P.length) / 256 % 256) ((5 + P.length) % 256) =
      5 + P.length := by
    simp only [read_byte_array_short]
    omega
  rw [hread]
  rw [if_neg (by omega)]
  have htake : (List.drop 0 (buildEnvelope pid cmd P)).take (5 + P.length + 4) =
      buildEnvelope pid cmd P := by
    rw [List.drop_zero]
    rw [show 5 + P.length + 4 = (buildEnvelope pid cmd P).length by omega]
    exact List.take_length _
  have hdropall : List.drop (0 + (5 + P.length) + 4) (buildEnvelope pid cmd P) = [] := by
    rw [show 0 + (5 + P.length) + 4 = (buildEnvelope pid cmd P).length by omega]
    exact List.drop_length _
  rw [htake, hdropall, packetSliceLoop_empty]

/-- crc_security accepts every envelope the encoder builds (the
checksum matches by construction) and hands non-transparent frames to
parse_payload, which recovers the packet id, cmd and the raw payload
region. -/
theorem crc_security_envelope (pid cmd : Nat) (P : List Nat)
    (hpid : pid < 65536) (hcmd : cmd < 65536)
    (hc0 : cmd ≠ 0) (hcf : cmd ≠ 65535) (hct : cmd ≠ 36) :
    crc_security (buildEnvelope pid cmd P) =
      .success ⟨(cmd : Int), (pid : Int), parsePayloadLoop (P.length + 1) P 0⟩ := by
  have hexp := buildEnvelope_parts pid cmd P
  have hlen := buildEnvelope_length pid cmd P
  have hdrop5 : (buildEnvelope pid cmd P).drop 5 =
      pid / 256 % 256 :: pid % 256 :: cmd / 256 % 256 :: cmd % 256 :: P := by
    rw [hexp]; simp
  have hb4 : byteAt (buildEnvelope pid cmd P) 4 =
      sum_calculation (pid / 256 % 256 :: pid % 256 :: cmd / 256 % 256 :: cmd % 256 :: P) := by
    rw [hexp]; simp [byteAt]
  have hb5 : byteAt (buildEnvelope pid cmd P) 5 = pid / 256 % 256 := by rw [hexp]; simp [byteAt]
  have hb6 : byteAt (buildEnvelope pid cmd P) 6 = pid % 256 := by rw [hexp]; simp [byteAt]
  have hb7 : byteAt (buildEnvelope pid cmd P) 7 = cmd / 256 % 256 := by rw [hexp]; simp [byteAt]
  have hb8 : byteAt (buildEnvelope pid cmd P) 8 = cmd % 256 := by rw [hexp]; simp [byteAt]
  have hdrop9 : (buildEnvelope pid cmd P).drop 9 = P := by rw [hexp]; simp
  have hreadc : read_byte_array_short (cmd / 256 % 256) (cmd % 256) = cmd := by
    simp only [read_byte_array_short]; omega
  have hreadp : read_byte_array_short (pid / 256 % 256) (pid % 256) = pid := by
    simp only [read_byte_array_short]; omega
  simp only [crc_security]
  rw [if_neg (by omega)]
  rw [hdrop5, hb4, if_pos rfl]
  rw [if_pos (by omega : 9 ≤ (buildEnvelope pid cmd P).length)]
  rw [hb7, hb8, hreadc]
  rw [if_neg (by omega : ¬(cmd = 0 ∨ cmd = 65535)), if_neg hct]
  simp only [parse_payload]
  rw [if_pos (by omega : 7 ≤ (buildEnvelope pid cmd P).length)]
  rw [hb5, hb6, hreadp]
  rw [if_pos (by omega : 9 ≤ (buildEnvelope pid cmd P).length)]
  rw [hb7, hb8, hreadc]
  rw [hdrop9]

/-! ## The exact round trip on canonical frames -/

/-- Shared round-trip engine: encoding a canonical frame with its own
packet id (`is_use_packet_id = true`) and feeding the emitted bytes to
a fresh decoder in one chunk yields exactly one `Success` carrying the
frame back unchanged, with an empty left-over accumulator. -/
theorem roundtrip_exact (s : Nat) (m : TtlvCommandModel) (P : List Nat)
    (hc : canonFrame m = true)
    (hP : encode_payload_to_buffer m.payloads = some P)
    (hlenP : 5 + P.length < 65536)
    (hno : noAA55 (buildEnvelope ((m.packetId % 65536)).toNat ((m.cmd % 65536)).toNat P)
      = true) :
    (start_encode_with_packet_id s m true).bind
      (fun p => packet_slice [] p.1.cmdData) = some ([.success m], []) := by
  obtain ⟨mc, mp, mps⟩ := m
  simp only [canonFrame, Bool.and_eq_true, decide_eq_true_eq, bne_iff_ne, ne_eq] at hc
  obtain ⟨⟨⟨⟨⟨⟨h0, h1⟩, h17⟩, h36⟩, hp0⟩, hp1⟩, hall⟩ := hc
  simp only at hP hno
  have hcmdN : ((mc % 65536)).toNat = mc.toNat := by omega
  have hpidN : ((mp % 65536)).toNat = mp.toNat := by omega
  rw [hcmdN, hpidN] at hno
  have hinv := splice_garble_inverse (buildEnvelope mp.toNat mc.toNat P)
    (by rw [buildEnvelope_parts]; simp) hno
  obtain ⟨g, hg, hsplice⟩ : ∃ g, garble_buffer (buildEnvelope mp.toNat mc.toNat P) = some g ∧
      splice_buffer g = some (buildEnvelope mp.toNat mc.toNat P) := by
    cases hgb : garble_buffer (buildEnvelope mp.toNat mc.toNat P) with
    | none => rw [hgb] at hinv; simp at hinv
    | some g =>
      rw [hgb] at hinv
      simp only [Option.some_bind] at hinv
      exact ⟨g, rfl, hinv⟩
  have henc : start_encode_with_packet_id s ⟨mc, mp, mps⟩ true =
      some ({ cmdKey := mc.toNat * 65536 + mp.toNat, cmdData := g,
              cmd := mc.toNat, packetId := mp.toNat }, s) := by
    simp only [start_encode_with_packet_id, hcmdN, hpidN]
    rw [if_neg (by omega : ¬ mc.toNat = 17)]
    rw [hP]
    simp [hg]
  rw [henc]
  show packet_slice [] g = some ([DecodeResult.success ⟨mc, mp, mps⟩], [])
  have hps : packet_slice [] g =
      some (packetSliceLoop ((buildEnvelope mp.toNat mc.toNat P).length + 1)
        (buildEnvelope mp.toNat mc.toNat P)) := by
    simp only [packet_slice, List.nil_append]
    rw [hsplice]
    rfl
  rw [hps]
  rw [packetSliceLoop_single mp.toNat mc.toNat P hlenP]
  rw [crc_security_envelope mp.toNat mc.toNat P (by omega) (by omega) (by omega) (by omega)
    (by omega)]
  have hpay : parsePayloadLoop (P.length + 1) P 0 = mps :=
    parseLoop_inverts mps hall P P hP 0 (P.length + 1) (List.drop_zero P) (by omega)
  rw [hpay]
  have hmc : ((mc.toNat : Nat) : Int) = mc := by omega
  have hmp : ((mp.toNat : Nat) : Int) = mp := by omega
  rw [hmc, hmp]

/-! ## Index arithmetic for the advertisement parser -/

theorem byteAt_cons_succ (a : Nat) (l : List Nat) (n : Nat) :
    byteAt (a :: l) (n + 1) = byteAt l n := rfl

theorem byteAt_append_right (l1 l2 : List Nat) (k : Nat) :
    byteAt (l1 ++ l2) (l1.length + k) = byteAt l2 k := by
  induction l1 with
  | nil => simp [byteAt]
  | cons a t ih =>
    show byteAt (a :: (t ++ l2)) (t.length + 1 + k) = byteAt l2 k
    rw [show t.length + 1 + k = (t.length + k) + 1 by omega, byteAt_cons_succ]
    exact ih

theorem byteAt_cons3_append (v0 v1 p0 : Nat) (pk Y : List Nat) (k : Nat) :
    byteAt (v0 :: v1 :: p0 :: (pk ++ Y)) (3 + pk.length + k) = byteAt Y k := by
  rw [show 3 + pk.length + k = (pk.length + k) + 1 + 1 + 1 by omega,
    byteAt_cons_succ, byteAt_cons_succ, byteAt_cons_succ, byteAt_append_right]

theorem byteAt_skip (d0 : Nat) (dkb Z : List Nat) (k : Nat) :
    byteAt (d0 :: (dkb ++ Z)) (1 + dkb.length + k) = byteAt Z k := by
  rw [show 1 + dkb.length + k = (dkb.length + k) + 1 by omega,
    byteAt_cons_succ, byteAt_append_right]

/-- decode_data on a well-shaped advertisement whose buffer continues
for at least two bytes after the status byte: the parse succeeds and
the capability bitmask is read low-byte-first — the byte at offset
`6 + pk_len + dk_len` (the later one) is the HIGH byte. -/
theorem decode_flags_present (b0 b1 v0 v1 status f1 f2 : Nat) (pk dkb rest : List Nat)
    (hf1 : f1 < 256)
    (hlen : 19 ≤ (b0 :: b1 :: v0 :: v1 :: pk.length ::
      (pk ++ dkb.length :: (dkb ++ status :: f1 :: f2 :: rest))).length) :
    (decode_data (b0 :: b1 :: v0 :: v1 :: pk.length ::
        (pk ++ dkb.length :: (dkb ++ status :: f1 :: f2 :: rest)))).map
      (fun dv => dv.capabilitiesBitmask) = some (f2 * 256 + f1) := by
  set X : List Nat := dkb ++ status :: f1 :: f2 :: rest with hX
  set T : List Nat := pk ++ dkb.length :: X with hT
  set data : List Nat := v0 :: v1 :: pk.length :: T with hdata
  have hTlen : T.length = pk.length + 1 + (dkb.length + (3 + rest.length)) := by
    rw [hT, hX]; simp only [List.length_append, List.length_cons]; omega
  have hdatalen : data.length = 3 + T.length := by
    rw [hdata]; simp only [List.length_cons]; omega
  have hb2 : byteAt data 2 = pk.length := rfl
  have hbd : byteAt data (3 + pk.length) = dkb.length := by
    rw [hdata, hT, show 3 + pk.length = 3 + pk.length + 0 by omega, byteAt_cons3_append]
    rfl
  have hstat : byteAt data (4 + pk.length + dkb.length) = status := by
    rw [hdata, hT,
      show 4 + pk.length + dkb.length = 3 + pk.length + (1 + dkb.length + 0) by omega,
      byteAt_cons3_append, hX, byteAt_skip]
    rfl
  have hbf1 : byteAt data (5 + pk.length + dkb.length) = f1 := by
    rw [hdata, hT,
      show 5 + pk.length + dkb.length = 3 + pk.length + (1 + dkb.length + 1) by omega,
      byteAt_cons3_append, hX, byteAt_skip]
    rfl
  have hbf2 : byteAt data (6 + pk.length + dkb.length) = f2 := by
    rw [hdata, hT,
      show 6 + pk.length + dkb.length = 3 + pk.length + (1 + dkb.length + 2) by omega,
      byteAt_cons3_append, hX, byteAt_skip]
    rfl
  have hdrop2 : (b0 :: b1 :: data).drop 2 = data := rfl
  show (decode_data (b0 :: b1 :: data)).map (fun dv => dv.capabilitiesBitmask) =
    some (f2 * 256 + f1)
  simp only [decode_data]
  rw [if_neg (Nat.not_lt.mpr hlen)]
  rw [hdrop2]
  rw [hb2]
  rw [if_neg (by omega)]
  rw [if_neg (by omega)]
  rw [hbd]
  rw [if_neg (by omega)]
  rw [if_neg (by omega)]
  rw [hstat, if_pos (by omega : 6 + pk.length + dkb.length ≤ data.length),
    if_pos (by omega : 6 + pk.length + dkb.length < data.length)]
  rw [hbf1, hbf2]
  simp [combine_bytes_to_short, Nat.mod_eq_of_lt hf1]

/-- decode_data on a well-shaped advertisement whose buffer ends right
after the status byte: parsing still succeeds and the capability
bitmask is 0. -/
theorem decode_flags_absent (b0 b1 v0 v1 status : Nat) (pk dkb : List Nat)
    (hlen : 19 ≤ (b0 :: b1 :: v0 :: v1 :: pk.length ::
      (pk ++ dkb.length :: (dkb ++ [status]))).length) :
    (decode_data (b0 :: b1 :: v0 :: v1 :: pk.length ::
        (pk ++ dkb.length :: (dkb ++ [status])))).map
      (fun dv => dv.capabilitiesBitmask) = some 0 := by
  set X : List Nat := dkb ++ [status] with hX
  set T : List Nat := pk ++ dkb.length :: X with hT
  set data : List Nat := v0 :: v1 :: pk.length :: T with hdata
  have hTlen : T.length = pk.length + 1 + (dkb.length + 1) := by
    rw [hT, hX]; simp only [List.length_append, List.length_cons, List.length_nil]; omega
  have hdatalen : data.length = 3 + T.length := by
    rw [hdata]; simp only [List.length_cons]; omega
  have hb2 : byteAt data 2 = pk.length := rfl
  have hbd : byteAt data (3 + pk.length) = dkb.length := by
    rw [hdata, hT, show 3 + pk.length = 3 + pk.length + 0 by omega, byteAt_cons3_append]
    rfl
  have hstat : byteAt data (4 + pk.length + dkb.length) = status := by
    rw [hdata, hT,
      show 4 + pk.length + dkb.length = 3 + pk.length + (1 + dkb.length + 0) by omega,
      byteAt_cons3_append, hX, byteAt_skip]
    rfl
  have hdrop2 : (b0 :: b1 :: data).drop 2 = data := rfl
  show (decode_data (b0 :: b1 :: data)).map (fun dv => dv.capabilitiesBitmask) = some 0
  simp only [decode_data]
  rw [if_neg (Nat.not_lt.mpr hlen)]
  rw [hdrop2]
  rw [hb2]
  rw [if_neg (by omega)]
  rw [if_neg (by omega)]
  rw [hbd]
  rw [if_neg (by omega)]
  rw [if_neg (by omega)]
  rw [hstat, if_neg (by omega : ¬ 6 + pk.length + dkb.length ≤ data.length)]
  simp

/-! ## Claim C1: encode/decode round trip -/

/-- C1 is false as stated: for the canonical Str-free frame
`{cmd = 0x7016, packet_id = 1000, payloads = [{id 1, type 3, Bin []}]}`
(one field, carrying a value), feeding the encoder's output to a fresh
decoder yields exactly one Success — but its payload list is empty, not
equal to F's up to type 5/3: parse_binary rejects a zero length
(`ttlv_len > 0` fails) and the decoder drops the field. -/
theorem C1_counterexample :
    (start_encode_with_packet_id 0 ⟨0x7016, 1000, [.mk 1 3 true (.binary [])]⟩ true).bind
        (fun p => packet_slice [] p.1.cmdData) =
      some ([.success ⟨0x7016, 1000, []⟩], []) ∧
    ([] : List TTLVData) ≠ [.mk 1 3 true (.binary [])] :=
  ⟨rfl, by simp⟩

/-- C1 (amended): the round trip `decode(encode F) = [Success F]` is
exact (type 5 is preserved, not canonicalised to 3 — which the claim's
"may come back as type 3" permits) for frames that are canonical in the
sense of `canonFrame`: valid non-read, non-transparent cmd, 16-bit
packet id, and every field carrying a value with matching type id,
13-bit id, and an i64-range Int, Bool, or non-empty ≤ 0xFFFF-byte Bin
value.  Beyond the claim's own restrictions the code forces: no Struct
fields (their header is emitted twice, see C6, which garbles
decoding), no Float fields (integral floats panic the encoder, see C7,
and the f64 path is outside this model), no empty Bin values (dropped,
see the counterexample), a payload short enough for the 16-bit length
field, and no 0xAA 0x55 pair in the pre-stuffing envelope (un-stuffing
strips whole 0x55 runs, see C2, corrupting such frames). -/
theorem C1_roundtrip_amended (s : Nat) (m : TtlvCommandModel) (P : List Nat)
    (hc : canonFrame m = true)
    (hP : encode_payload_to_buffer m.payloads = some P)
    (hlenP : 5 + P.length < 65536)
    (hno : noAA55 (buildEnvelope ((m.packetId % 65536)).toNat ((m.cmd % 65536)).toNat P)
      = true) :
    (start_encode_with_packet_id s m true).bind
      (fun p => packet_slice [] p.1.cmdData) = some ([.success m], []) :=
  roundtrip_exact s m P hc hP hlenP hno

/-- Witness for C1: a concrete three-field canonical frame (integer,
binary, boolean) round-trips exactly. -/
theorem C1_witness :
    canonFrame ⟨0x7016, 1000, [.mk 1 2 true (.integer 300), .mk 2 3 true (.binary [1, 2, 3]),
        .mk 3 1 true (.boolean true)]⟩ = true ∧
    encode_payload_to_buffer [.mk 1 2 true (.integer 300), .mk 2 3 true (.binary [1, 2, 3]),
        .mk 3 1 true (.boolean true)] =
      some [0, 10, 1, 1, 44, 0, 19, 0, 3, 1, 2, 3, 0, 25] ∧
    5 + ([0, 10, 1, 1, 44, 0, 19, 0, 3, 1, 2, 3, 0, 25] : List Nat).length < 65536 ∧
    noAA55 (buildEnvelope (((1000 : Int) % 65536)).toNat (((0x7016 : Int) % 65536)).toNat
      [0, 10, 1, 1, 44, 0, 19, 0, 3, 1, 2, 3, 0, 25]) = true ∧
    (start_encode_with_packet_id 0 ⟨0x7016, 1000, [.mk 1 2 true (.integer 300),
        .mk 2 3 true (.binary [1, 2, 3]), .mk 3 1 true (.boolean true)]⟩ true).bind
      (fun p => packet_slice [] p.1.cmdData) =
      some ([.success ⟨0x7016, 1000, [.mk 1 2 true (.integer 300),
        .mk 2 3 true (.binary [1, 2, 3]), .mk 3 1 true (.boolean true)]⟩], []) :=
  ⟨by decide, by decide, by decide, by decide,
    C1_roundtrip_amended 0
      ⟨0x7016, 1000, [.mk 1 2 true (.integer 300), .mk 2 3 true (.binary [1, 2, 3]),
        .mk 3 1 true (.boolean true)]⟩
      [0, 10, 1, 1, 44, 0, 19, 0, 3, 1, 2, 3, 0, 25]
      (by decide) (by decide) (by decide) (by decide)⟩

/-! ## Claim C2: un-stuffing inverts stuffing -/

/-- C2 is false as stated: `B = [0, 0, 0xAA, 0x55]` stuffs (from index
2) to `[0, 0, 0xAA, 0x55, 0x55]`, whose stuffed form contains no
0xAA 0xAA 0x55 — yet un-stuffing returns `[0, 0, 0xAA]`, not `B`: the
decoder's scan does not advance after removing a 0x55, so it strips
the whole 0x55 run after the 0xAA, including B's own 0x55. -/
theorem C2_counterexample :
    garble_buffer [0, 0, 170, 85] = some [0, 0, 170, 85, 85] ∧
    hasAAAA55 [0, 0, 170, 85, 85] = false ∧
    (garble_buffer [0, 0, 170, 85]).bind splice_buffer = some [0, 0, 170] ∧
    (garble_buffer [0, 0, 170, 85]).bind splice_buffer ≠ some [0, 0, 170, 85] :=
  ⟨rfl, rfl, rfl, by decide⟩

/-- C2 (amended): un-stuffing undoes stuffing, with the first two
bytes preserved, for every non-empty byte string B that contains no
adjacent 0xAA 0x55 pair anywhere (including within the first two bytes
and across the index-2 boundary, which the stuffing pass never
examines).  The claim's original side condition (no 0xAA 0xAA 0x55 in
the stuffed form) is neither necessary nor sufficient for the code:
the decoder removes every 0x55 run after an 0xAA, so any 0xAA 0x55
pair already in B is corrupted. -/
theorem C2_unstuff_stuff_amended (B : List Nat) (hne : B ≠ [])
    (h : noAA55 B = true) :
    (garble_buffer B).bind splice_buffer = some B :=
  splice_garble_inverse B hne h

/-- Witness for C2: a buffer with an interior 0xAA 0xAA pair stuffs to
0xAA 0x55 0xAA and un-stuffs back. -/
theorem C2_witness :
    ([1, 2, 170, 170, 3] : List Nat) ≠ [] ∧
    noAA55 [1, 2, 170, 170, 3] = true ∧
    (garble_buffer [1, 2, 170, 170, 3]).bind splice_buffer = some [1, 2, 170, 170, 3] :=
  ⟨by decide, by decide, C2_unstuff_stuff_amended [1, 2, 170, 170, 3] (by decide) (by decide)⟩

/-! ## Claim C3: checksum invariant of emitted frames -/

/-- C3 is false as stated: for the frame `{cmd = 0x7032,
packet_id = 1000}` with one Bin [0xAA, 0xAA] field the emitted
(stuffed) output has byte 4 = 0xEE but the wrapping sum of its bytes
from index 5 on is 0x43 — the checksum is computed before the stuffing
pass, which here inserts a 0x55. -/
theorem C3_counterexample :
    (start_encode_with_packet_id 0 ⟨0x7032, 1000, [.mk 1 3 true (.binary [170, 170])]⟩
        true).map (fun p => p.1.cmdData) =
      some [170, 170, 0, 11, 238, 3, 232, 112, 50, 0, 11, 0, 2, 170, 85, 170] ∧
    byteAt [170, 170, 0, 11, 238, 3, 232, 112, 50, 0, 11, 0, 2, 170, 85, 170] 4 ≠
      sum_calculation
        (([170, 170, 0, 11, 238, 3, 232, 112, 50, 0, 11, 0, 2, 170, 85, 170] : List Nat).drop 5) :=
  ⟨rfl, by decide⟩

/-- C3 (amended): the checksum equation holds for the envelope the
encoder builds before the stuffing pass — equivalently, for the
un-stuffed emitted frame: whenever the envelope contains no 0xAA 0x55
pair, un-stuffing the emitted (stuffed) bytes returns exactly that
envelope, and its byte 4 is the 8-bit wrapping sum of its bytes from
index 5 to the end. -/
theorem C3_crc_amended (pid cmd : Nat) (P : List Nat)
    (hno : noAA55 (buildEnvelope pid cmd P) = true) :
    (garble_buffer (buildEnvelope pid cmd P)).bind splice_buffer =
      some (buildEnvelope pid cmd P) ∧
    byteAt (buildEnvelope pid cmd P) 4 =
      sum_calculation ((buildEnvelope pid cmd P).drop 5) := by
  constructor
  · exact splice_garble_inverse _ (by rw [buildEnvelope_parts]; simp) hno
  · rw [buildEnvelope_parts]
    simp [byteAt]

/-- Witness for C3 at a concrete envelope. -/
theorem C3_witness :
    noAA55 (buildEnvelope 1000 28722 [1, 2]) = true ∧
    ((garble_buffer (buildEnvelope 1000 28722 [1, 2])).bind splice_buffer =
      some (buildEnvelope 1000 28722 [1, 2]) ∧
    byteAt (buildEnvelope 1000 28722 [1, 2]) 4 =
      sum_calculation ((buildEnvelope 1000 28722 [1, 2]).drop 5)) :=
  ⟨by decide, C3_crc_amended 1000 28722 [1, 2] (by decide)⟩

/-! ## Claim C4: the serial packet-id generator -/

/-- C4 (confirmed): starting from the fresh counter 0, the `n`-th call
(0-based) of get_serial_num returns `1000 + n % 64535`; the values are
therefore 1000, 1001, …, 0xFFFE (= 65534 = 1000 + 64534) and then
1000, 1001, … again, and no call ever returns 0 or 0xFFFF. -/
theorem C4_serial_generator (n : Nat) :
    serialNth n = 1000 + n % 64535 ∧ serialNth n ≠ 0 ∧ serialNth n ≠ 65535 := by
  have h := serialNth_eq n
  have h2 : n % 64535 < 64535 := Nat.mod_lt _ (by norm_num)
  exact ⟨h, by omega, by omega⟩

/-! ## Claim C5: the concrete read-command frame -/

/-- C5 is false as stated: the claimed byte string has checksum byte
0x17 at index 4, but the encoder's wrapping sum of
`03 E8 00 11 10 01` is 0x0D, so the emitted frame differs from the
claim. -/
theorem C5_counterexample :
    (start_encode_with_packet_id 0 ⟨0x11, 0, [.mk 0x1001 0 false .vnone]⟩ false).map
        (fun p => p.1.cmdData) ≠
      some [0xAA, 0xAA, 0x00, 0x07, 0x17, 0x03, 0xE8, 0x00, 0x11, 0x10, 0x01] := by
  decide

/-- C5 (amended): encoding the read command `{cmd = 0x0011}` with one
non-carrying field of id 0x1001 on a fresh encoder (serial packet id
1000) produces exactly `AA AA 00 07 0D 03 E8 00 11 10 01` — the bytes
of the claim with the correct checksum 0x0D in place of 0x17. -/
theorem C5_read_command_amended :
    (start_encode_with_packet_id 0 ⟨0x11, 0, [.mk 0x1001 0 false .vnone]⟩ false).map
        (fun p => (p.1.cmdData, p.1.packetId)) =
      some ([0xAA, 0xAA, 0x00, 0x07, 0x0D, 0x03, 0xE8, 0x00, 0x11, 0x10, 0x01], 1000) := by
  rfl

/-! ## Claim C6: struct field layout -/

/-- C6 is false as stated: encoding the carried struct field
`{id 1, type 4}` with one boolean child emits the field's header
`00 0C` twice — once from the generic field path and once from
encode_struct_payload — before the element count, so the output is
`00 0C 00 0C 00 01 00 11` rather than the claimed
header-once `00 0C 00 01 00 11`. -/
theorem C6_counterexample :
    encode_payload_to_buffer [.mk 1 4 true (.tstruct [.mk 2 1 true (.boolean true)])] =
      some [0, 12, 0, 12, 0, 1, 0, 17] ∧
    ([0, 12, 0, 12, 0, 1, 0, 17] : List Nat) ≠ [0, 12, 0, 1, 0, 17] :=
  ⟨rfl, by decide⟩

/-- C6 (amended): for every carried struct field (type id 4, 13-bit id,
child count below 0x10000) encoded on the non-read path, the encoder
emits the 2-byte header `(id << 3) | 4` twice, then the 2-byte
big-endian child count (counting every child, including non-carrying
ones), then the children's encodings in order as produced by the
struct child encoder (which skips non-carrying children and doubles
the headers of nested struct children in the same way). -/
theorem C6_struct_header_amended (id : Int) (cs : List TTLVData)
    (h0 : 0 ≤ id) (h1 : id < 8192) (h2 : cs.length < 65536) :
    encode_payload_to_buffer [.mk id 4 true (.tstruct cs)] =
      (encodeStructChildren cs).map
        (fun inner => [(8 * id.toNat + 4) / 256, (8 * id.toNat + 4) % 256] ++
          ([(8 * id.toNat + 4) / 256, (8 * id.toNat + 4) % 256] ++
            ([cs.length / 256, cs.length % 256] ++ inner))) := by
  have hhdr : ttlvHeader id 4 = 8 * id.toNat + 4 := by
    rw [ttlvHeader_eq id 4 h0 h1 (by omega) (by omega)]
    rfl
  have hb1 : get_byte_by_short ((ttlvHeader id 4 : Nat) : Int) =
      [(8 * id.toNat + 4) / 256, (8 * id.toNat + 4) % 256] := by
    rw [hhdr, get_byte_by_short_eq _ (by omega)]
  have hb2 : get_byte_by_short ((cs.length : Nat) : Int) =
      [cs.length / 256, cs.length % 256] := get_byte_by_short_eq _ h2
  cases hsc : encodeStructChildren cs with
  | none =>
    simp [encode_payload_to_buffer, encode_struct_payload, hsc, TTLVData.ttlv,
      TTLVData.value, TTLVData.id, TTLVData.typeId]
  | some inner =>
    simp only [encode_payload_to_buffer, encode_struct_payload, hsc, TTLVData.ttlv,
      TTLVData.value, TTLVData.id, TTLVData.typeId, Option.map_some']
    rw [hb1, hb2]
    simp

/-- Witness for C6 at a concrete struct field with one boolean child. -/
theorem C6_witness :
    (0 : Int) ≤ 3 ∧ (3 : Int) < 8192 ∧
    ([TTLVData.mk 2 1 true (.boolean true)] : List TTLVData).length < 65536 ∧
    encode_payload_to_buffer [.mk 3 4 true (.tstruct [.mk 2 1 true (.boolean true)])] =
      (encodeStructChildren [TTLVData.mk 2 1 true (.boolean true)]).map
        (fun inner => [(8 * (3 : Int).toNat + 4) / 256, (8 * (3 : Int).toNat + 4) % 256] ++
          ([(8 * (3 : Int).toNat + 4) / 256, (8 * (3 : Int).toNat + 4) % 256] ++
            ([([TTLVData.mk 2 1 true (.boolean true)] : List TTLVData).length / 256,
              ([TTLVData.mk 2 1 true (.boolean true)] : List TTLVData).length % 256] ++
              inner))) :=
  ⟨by decide, by decide, by decide,
    C6_struct_header_amended 3 [TTLVData.mk 2 1 true (.boolean true)]
      (by decide) (by decide) (by decide)⟩

/-! ## Claim C7: encoder infallibility -/

/-- C7 names a real code bug: the encoder is not total on well-formed
frames with Float values.  `encode_enum_value` on `Float(2.0)` calls
`get_double_result("2")`, which parses 2.0 and calls
`extract_double(2.0)`; that function renders the value as
`format!("{:.15}")` = "2.000000000000000", parses the 15-digit
fraction to 0 and hits `panic!(PARAMS_ERROR)` — modelled here as
`none` on the rendered string.  So encoding any frame containing a
field with an integral (or sub-1e-15) finite Float panics, contradicting
the claim that encoding never fails or panics. -/
theorem C7_float_integral_panics : extract_double "2.000000000000000" = none := by
  decide

/-! ## Claim C8: the advertisement parser on the 17-byte input -/

/-- C8 is false as stated: the 17-byte input is rejected by the
length guard (`manufacturer_data.len() < 19`), so decode_data returns
an error, not a parsed descriptor. -/
theorem C8_counterexample :
    decode_data [0x45, 0x43, 0x00, 0x01, 0x04, 0x61, 0x62, 0x63, 0x64, 0x04, 0xDE, 0xAD,
      0xBE, 0xEF, 0x00, 0x01, 0x00] = none := by
  decide

/-- C8 (amended): on the 19-byte extension of the claim's input (two
0x00 bytes appended) the parser succeeds with product_key "abcd" and
device_key "deadbeef": no trailing-'0' trim happens, both because the
flags pair is combined low-byte-first (wire bytes 01 00 decode to
0x0001, whose bit 8 is clear — see C9) and because "deadbeef" does not
end in '0' anyway. -/
theorem C8_advertisement_amended :
    (decode_data ([0x45, 0x43, 0x00, 0x01, 0x04, 0x61, 0x62, 0x63, 0x64, 0x04, 0xDE, 0xAD,
        0xBE, 0xEF, 0x00, 0x01, 0x00] ++ [0x00, 0x00])).map
      (fun d => (d.productKey, d.deviceKey, d.capabilitiesBitmask)) =
      some ("abcd", "deadbeef", 1) := by
  decide

/-- decode_data on a well-shaped advertisement whose buffer ends
exactly one byte after the status byte: the availability guard
`data.len() >= 6 + pk_len + dk_len` passes, but the read of
`data[6 + pk_len + dk_len]` is out of bounds, so decoding fails (in
the Rust source, an index panic caught by catch_unwind and turned
into Err). -/
theorem decode_flags_one (b0 b1 v0 v1 status f1 : Nat) (pk dkb : List Nat)
    (hlen : 19 ≤ (b0 :: b1 :: v0 :: v1 :: pk.length ::
      (pk ++ dkb.length :: (dkb ++ [status, f1]))).length) :
    decode_data (b0 :: b1 :: v0 :: v1 :: pk.length ::
      (pk ++ dkb.length :: (dkb ++ [status, f1]))) = none := by
  set X : List Nat := dkb ++ [status, f1] with hX
  set T : List Nat := pk ++ dkb.length :: X with hT
  set data : List Nat := v0 :: v1 :: pk.length :: T with hdata
  have hTlen : T.length = pk.length + 1 + (dkb.length + 2) := by
    rw [hT, hX]; simp only [List.length_append, List.length_cons, List.length_nil]; omega
  have hdatalen : data.length = 3 + T.length := by
    rw [hdata]; simp only [List.length_cons]; omega
  have hb2 : byteAt data 2 = pk.length := rfl
  have hbd : byteAt data (3 + pk.length) = dkb.length := by
    rw [hdata, hT, show 3 + pk.length = 3 + pk.length + 0 by omega, byteAt_cons3_append]
    rfl
  have hstat : byteAt data (4 + pk.length + dkb.length) = status := by
    rw [hdata, hT,
      show 4 + pk.length + dkb.length = 3 + pk.length + (1 + dkb.length + 0) by omega,
      byteAt_cons3_append, hX, byteAt_skip]
    rfl
  have hdrop2 : (b0 :: b1 :: data).drop 2 = data := rfl
  show decode_data (b0 :: b1 :: data) = none
  simp only [decode_data]
  rw [if_neg (Nat.not_lt.mpr hlen)]
  rw [hdrop2]
  rw [hb2]
  rw [if_neg (by omega)]
  rw [if_neg (by omega)]
  rw [hbd]
  rw [if_neg (by omega)]
  rw [if_neg (by omega)]
  rw [hstat, if_pos (by omega : 6 + pk.length + dkb.length ≤ data.length),
    if_neg (by omega : ¬ 6 + pk.length + dkb.length < data.length)]

/-! ## Claim C9: the flags pair of the advertisement -/

/-- C9 is false as stated: on the 19-byte advertisement whose two
flag-position bytes are 01 00 (earlier byte 0x01, later byte 0x00),
the parsed flags value is 1, not the big-endian 0x0100 — the code
passes the LATER byte as the high argument of
combine_bytes_to_short. -/
theorem C9_counterexample :
    (decode_data [0x45, 0x43, 0x00, 0x01, 0x04, 0x61, 0x62, 0x63, 0x64, 0x04, 0xDE, 0xAD,
        0xBE, 0xEF, 0x00, 0x01, 0x00, 0x00, 0x00]).map
      (fun dv => dv.capabilitiesBitmask) = some 1 ∧ (1 : Nat) ≠ 0x0100 := by
  decide

/-- C9 (amended): after the status byte the parser combines the two
following bytes with the LATER byte (offset `6 + pk_len + dk_len`) as
the high byte — the pair is little-endian on the wire, not big-endian.
Flags defaults to 0 with a successful parse only when the buffer ends
immediately after the status byte; when exactly one byte follows the
status byte, the guard `data.len() >= 6 + pk_len + dk_len` passes but
the high-byte read `data[6 + pk_len + dk_len]` is out of bounds, so
decoding fails instead of defaulting to 0. -/
theorem C9_flags_amended :
    (∀ b0 b1 v0 v1 status f1 f2 : Nat, ∀ pk dkb rest : List Nat, f1 < 256 →
      19 ≤ (b0 :: b1 :: v0 :: v1 :: pk.length ::
        (pk ++ dkb.length :: (dkb ++ status :: f1 :: f2 :: rest))).length →
      (decode_data (b0 :: b1 :: v0 :: v1 :: pk.length ::
          (pk ++ dkb.length :: (dkb ++ status :: f1 :: f2 :: rest)))).map
        (fun dv => dv.capabilitiesBitmask) = some (f2 * 256 + f1)) ∧
    (∀ b0 b1 v0 v1 status : Nat, ∀ pk dkb : List Nat,
      19 ≤ (b0 :: b1 :: v0 :: v1 :: pk.length ::
        (pk ++ dkb.length :: (dkb ++ [status]))).length →
      (decode_data (b0 :: b1 :: v0 :: v1 :: pk.length ::
          (pk ++ dkb.length :: (dkb ++ [status])))).map
        (fun dv => dv.capabilitiesBitmask) = some 0) ∧
    (∀ b0 b1 v0 v1 status f1 : Nat, ∀ pk dkb : List Nat,
      19 ≤ (b0 :: b1 :: v0 :: v1 :: pk.length ::
        (pk ++ dkb.length :: (dkb ++ [status, f1]))).length →
      decode_data (b0 :: b1 :: v0 :: v1 :: pk.length ::
        (pk ++ dkb.length :: (dkb ++ [status, f1]))) = none) :=
  ⟨decode_flags_present, decode_flags_absent, decode_flags_one⟩

/-- Witness: the three branches of C9_flags_amended at concrete
19-byte advertisements — flags bytes 01 00 parse to 1; a buffer ending
at the status byte parses with flags 0; a buffer with exactly one flag
byte fails to decode. -/
theorem C9_witness :
    (decode_data [0x45, 0x43, 0x00, 0x01, 0x04, 0x61, 0x62, 0x63, 0x64, 0x04, 0xDE, 0xAD,
        0xBE, 0xEF, 0x00, 0x01, 0x00, 0x00, 0x00]).map
      (fun dv => dv.capabilitiesBitmask) = some 1 ∧
    (decode_data [0x45, 0x43, 0x00, 0x01, 0x06, 0x61, 0x62, 0x63, 0x64, 0x65, 0x66, 0x06,
        1, 2, 3, 4, 5, 6, 0x00]).map (fun dv => dv.capabilitiesBitmask) = some 0 ∧
    decode_data [0x45, 0x43, 0x00, 0x01, 0x04, 0x61, 0x62, 0x63, 0x64, 0x07, 1, 2, 3, 4,
      5, 6, 7, 0x00, 0x01] = none :=
  ⟨C9_flags_amended.1 0x45 0x43 0x00 0x01 0x00 0x01 0x00 [0x61, 0x62, 0x63, 0x64]
      [0xDE, 0xAD, 0xBE, 0xEF] [0x00, 0x00] (by decide) (by decide),
   C9_flags_amended.2.1 0x45 0x43 0x00 0x01 0x00 [0x61, 0x62, 0x63, 0x64, 0x65, 0x66]
      [1, 2, 3, 4, 5, 6] (by decide),
   C9_flags_amended.2.2 0x45 0x43 0x00 0x01 0x00 0x01 [0x61, 0x62, 0x63, 0x64]
      [1, 2, 3, 4, 5, 6, 7] (by decide)⟩

/-! ## Claim C10: totality of the decoder feed -/

/-- C10 names a real code bug: feeding an empty chunk to a decoder
whose accumulator is empty panics instead of returning a result list.
packet_slice calls splice_buffer on the (empty) combined buffer, whose
loop bound `arr.len() - 1` underflows the `usize` — a
subtract-with-overflow panic in debug builds, a wrap followed by an
out-of-bounds `arr[0]` panic in release builds.  The model returns
`none` exactly there. -/
theorem C10_empty_feed_panics : packet_slice [] [] = none := rfl

end Quec
